import Mathlib

/-
Verification development for the archetypes repository, file
src/archetypes/sklearn/_aa_3.py (Archetype Analysis, class AABase_3 / AA_3
with the nnls, pgd and jax optimization strategies).

The Python code is shallowly embedded here.  Machine floats are modelled by
exact arithmetic over a linear ordered field (instantiated at the rationals
for the nnls and pgd strategies, and at the reals for the jax strategy,
whose softmax needs the exponential function).  The mutable attributes of
the estimator object (self.A_, self.B_, self.archetypes_, self.loss_, and
the strategy-private attributes) become an explicit state record; each
Python method becomes a state-transforming function.  External
collaborators (the nnls simplex solver from archetypes.utils, numpy pinv,
the optax optimizer and the initialization routine init_c_) are passed in
as function parameters, since their code is not part of this file of the
repository.
-/

namespace AA

open Matrix

abbrev Mat (a b : ℕ) (α : Type) := Matrix (Fin a) (Fin b) α

/-- Engine state: the mutable attributes of AABase_3 that fit reads and
writes.  The field extra holds the strategy-private attributes (for pgd:
step sizes, gradient buffers and the Gram matrix; for jax: the logits and
optimizer states; for nnls: nothing). -/
structure AASt (α : Type) (n k f : ℕ) (η : Type) where
  A : Mat n k α
  B : Mat k n α
  archetypes : Mat k f α
  loss_ : List α
  extra : η

variable {α : Type} [LinearOrderedField α] {n k f : ℕ} {η : Type}

/-- AABase_3._loss: squared Frobenius norm of X - A @ archetypes. -/
def lossFn (X : Mat n f α) (s : AASt α n k f η) : α :=
  ∑ i, ∑ j, (X i j - (s.A * s.archetypes) i j) ^ 2

/-- AABase_3._compute_archetypes: archetypes_ := B_ @ X. -/
def computeArchetypes (X : Mat n f α) (s : AASt α n k f η) : AASt α n k f η :=
  { s with archetypes := s.B * X }

/-- AABase_3._init_A: one-hot assignment A[i, ind i] = 1; the random draws
ind are a parameter (they come from self.random_state.choice). -/
def onehotA (inds : Fin n → Fin k) : Mat n k α :=
  fun i j => if j = inds i then 1 else 0

/-- AABase_3._init_B: one-hot assignment B[i, ind i] = 1; the indices ind
are a parameter (they come from the external init_c_ routine). -/
def onehotB (inds : Fin k → Fin n) : Mat k n α :=
  fun i j => if j = inds i then 1 else 0

/-- The iteration loop of AABase_3.fit: for each of the remaining
iterations, run _optim_A then _optim_B, recompute the archetypes, append
the new loss, and break as soon as the absolute difference of the last two
recorded losses is below tol. -/
def fitLoop (optA optB : AASt α n k f η → AASt α n k f η) (X : Mat n f α)
    (tol : α) : ℕ → AASt α n k f η → AASt α n k f η
  | 0, s => s
  | m + 1, s =>
    let s1 := computeArchetypes X (optB (optA s))
    let rss := lossFn X s1
    let prev := s1.loss_.getLastD 0
    let s2 := { s1 with loss_ := s1.loss_ ++ [rss] }
    if |rss - prev| < tol then s2 else fitLoop optA optB X tol m s2

/-- AABase_3.fit: run the strategy initializers for A and B, compute the
archetypes and the initial loss, then run the iteration loop. -/
def engineFit (initA initB optA optB : AASt α n k f η → AASt α n k f η)
    (X : Mat n f α) (maxIter : ℕ) (tol : α) (s : AASt α n k f η) :
    AASt α n k f η :=
  let s0 := initB (initA s)
  let s1 := computeArchetypes X s0
  let s2 := { s1 with loss_ := [lossFn X s1] }
  fitLoop optA optB X tol maxIter s2

/-! ### Projected gradient strategy (pgd) -/

/-- The literal 1e-8 appearing in the pgd clamping steps. -/
def theta (α : Type) [LinearOrderedField α] : α := 1 / 100000000

/-- Strategy-private attributes of the pgd strategy: step_size_A_,
step_size_B_ (set to the learning rate at construction time in
_check_parameters_, not reset by _pgd_fit) and the buffers GA_, GB_, XTX_
set by _pgd_fit. -/
structure PGDExtra (α : Type) (n k : ℕ) where
  stepA : α
  stepB : α
  GA : Mat n k α
  GB : Mat k n α
  XTX : Mat n n α

abbrev PGDSt (α : Type) (n k f : ℕ) := AASt α n k f (PGDExtra α n k)

/-- Clamp step of _pgd_optim_A: np.where(S < 0, 1e-8, S). -/
def clampA (S : Mat k n α) : Mat k n α :=
  fun i j => if S i j < 0 then theta α else S i j

/-- Clamp step of _pgd_optim_B: np.where(C < 1e-8, 0, C). -/
def clampB (C : Mat n k α) : Mat n k α :=
  fun i j => if C i j < theta α then 0 else C i j

/-- Column renormalization S / np.sum(S, axis=0). -/
def colNormalize (S : Mat a b α) : Mat a b α :=
  fun i j => S i j / ∑ i', S i' j

/-- Projection used by the line search of _pgd_optim_A. -/
def projA (S : Mat k n α) : Mat k n α := colNormalize (clampA S)

/-- Projection used by the line search of _pgd_optim_B. -/
def projB (C : Mat n k α) : Mat n k α := colNormalize (clampB C)

/-- Sum of the elementwise product of two matrices, np.sum(M * N). -/
def hadSum (M N : Mat a b α) : α := ∑ i, ∑ j, M i j * N i j

/-- The quadratic form -2 np.sum(CTXTX * S) + np.sum(CTXTXC * (S @ S.T))
used as the loss surrogate inside _pgd_optim_A. -/
def quadA (CTXTX : Mat k n α) (CTXTXC : Mat k k α) (S : Mat k n α) : α :=
  -2 * hadSum CTXTX S + hadSum CTXTXC (S * Sᵀ)

/-- The quadratic form -2 np.sum(XTXST * C) + np.sum(C.T @ XTX @ C * SST)
used as the loss surrogate inside _pgd_optim_B. -/
def quadB (XTXST : Mat n k α) (XTX : Mat n n α) (SST : Mat k k α)
    (C : Mat n k α) : α :=
  -2 * hadSum XTXST C + hadSum (Cᵀ * XTX * C) SST

/-- Result of one backtracking line search: the working matrix, the step
size, the loss baseline, and whether some trial was accepted (the Python
loop breaks on acceptance; without acceptance the last trial value stays
in the working matrix). -/
structure LSRes (α : Type) (a b : ℕ) where
  S : Mat a b α
  step : α
  rssp : α
  acc : Bool

/-- The backtracking line search shared by _pgd_optim_A and _pgd_optim_B:
each trial steps from Sprev along the negative gradient with the current
step size, projects, and evaluates the quadratic-form loss qf; on
non-increase the trial is accepted, the step size is divided by beta and
the loop breaks; otherwise the step size is multiplied by beta and the
next trial runs, up to the given number of trials. -/
def lineSearch (qf : Mat a b α → α) (proj : Mat a b α → Mat a b α) (β : α)
    (Sprev GS : Mat a b α) : ℕ → α → Mat a b α → α → LSRes α a b
  | 0, step, Scur, rssp => ⟨Scur, step, rssp, false⟩
  | m + 1, step, _, rssp =>
    let Scand := proj (fun i j => Sprev i j - step * GS i j)
    let rss := qf Scand
    if rss ≤ rssp then ⟨Scand, step / β, rss, true⟩
    else lineSearch qf proj β Sprev GS m (step * β) Scand rssp

/-- Result of the outer gradient-step loop of a pgd optimize call.  The
field acc records whether every inner line search ended in acceptance (it
is instrumentation for stating theorems; the other fields are exactly the
Python variables S_, GS_, step size and rss_prev). -/
structure GDRes (α : Type) (a b : ℕ) where
  S : Mat a b α
  GS : Mat a b α
  step : α
  rssp : α
  acc : Bool

/-- The outer loop of _pgd_optim_A: n_iter_optimizer gradient steps; each
step computes the gradient of the quadratic form at the current S,
re-centers it by subtracting the per-column weighted inner product, and
runs the line search starting from the current S. -/
def gradStepsA (CTXTX : Mat k n α) (CTXTXC : Mat k k α) (β : α)
    (maxLS : ℕ) : ℕ → Mat k n α → Mat k n α → α → α → Bool → GDRes α k n
  | 0, S, GS, step, rssp, acc => ⟨S, GS, step, rssp, acc⟩
  | m + 1, S, _, step, rssp, acc =>
    let GS1 := CTXTXC * S - CTXTX
    let GS2 : Mat k n α := fun i j => GS1 i j - ∑ i', GS1 i' j * S i' j
    let r := lineSearch (quadA CTXTX CTXTXC) projA β S GS2 maxLS step S rssp
    gradStepsA CTXTX CTXTXC β maxLS m r.S GS2 r.step r.rssp (acc && r.acc)

/-- The outer loop of _pgd_optim_B, symmetric to gradStepsA with the roles
transposed; the gradient is XTX @ C @ SST - XTXST, re-centered per column. -/
def gradStepsB (XTX : Mat n n α) (XTXST : Mat n k α) (SST : Mat k k α)
    (β : α) (maxLS : ℕ) : ℕ → Mat n k α → Mat n k α → α → α → Bool →
    GDRes α n k
  | 0, C, GC, step, rssp, acc => ⟨C, GC, step, rssp, acc⟩
  | m + 1, C, _, step, rssp, acc =>
    let GC1 := XTX * C * SST - XTXST
    let GC2 : Mat n k α := fun i j => GC1 i j - ∑ i', GC1 i' j * C i' j
    let r := lineSearch (quadB XTXST XTX SST) projB β C GC2 maxLS step C rssp
    gradStepsB XTX XTXST SST β maxLS m r.S GC2 r.step r.rssp (acc && r.acc)

/-- Computational core of _pgd_optim_A: set up C = B.T, S = A.T,
GS = GA.T, precompute C.T @ XTX @ C and C.T @ XTX, take the initial
quadratic-form loss as baseline, and run the gradient steps. -/
def pgdOptimACore (β : α) (nIter maxLS : ℕ) (s : PGDSt α n k f) :
    GDRes α k n :=
  let C := s.Bᵀ
  let S := s.Aᵀ
  let CTXTXC := Cᵀ * s.extra.XTX * C
  let CTXTX := Cᵀ * s.extra.XTX
  gradStepsA CTXTX CTXTXC β maxLS nIter S s.extra.GAᵀ s.extra.stepA
    (quadA CTXTX CTXTXC S) true

/-- State update of _pgd_optim_A: persist S, GS and the step size. -/
def pgdOptimA (β : α) (nIter maxLS : ℕ) (s : PGDSt α n k f) :
    PGDSt α n k f :=
  let r := pgdOptimACore β nIter maxLS s
  { s with A := r.Sᵀ,
           extra := { s.extra with GA := r.GSᵀ, stepA := r.step } }

/-- Computational core of _pgd_optim_B: set up C = B.T, S = A.T,
GC = GB.T, precompute SST = S @ S.T and XTXST = XTX @ S.T, take the
initial quadratic-form loss as baseline, and run the gradient steps. -/
def pgdOptimBCore (β : α) (nIter maxLS : ℕ) (s : PGDSt α n k f) :
    GDRes α n k :=
  let C := s.Bᵀ
  let S := s.Aᵀ
  let SST := S * Sᵀ
  let XTXST := s.extra.XTX * Sᵀ
  gradStepsB s.extra.XTX XTXST SST β maxLS nIter C s.extra.GBᵀ
    s.extra.stepB (quadB XTXST s.extra.XTX SST C) true

/-- State update of _pgd_optim_B: persist C, GC and the step size. -/
def pgdOptimB (β : α) (nIter maxLS : ℕ) (s : PGDSt α n k f) :
    PGDSt α n k f :=
  let r := pgdOptimBCore β nIter maxLS s
  { s with B := r.Sᵀ,
           extra := { s.extra with GB := r.GSᵀ, stepB := r.step } }

/-- _pgd_fit: zero the gradient buffers, precompute XTX = X @ X.T (the
step sizes are NOT reset here: they were set at construction time and
persist across fit calls), then run the generic engine fit. -/
def pgdFit (β : α) (nIter maxLS : ℕ) (X : Mat n f α)
    (indsA : Fin n → Fin k) (indsB : Fin k → Fin n) (maxIter : ℕ)
    (tol : α) (s : PGDSt α n k f) : PGDSt α n k f :=
  let s' : PGDSt α n k f :=
    { s with extra := { stepA := s.extra.stepA, stepB := s.extra.stepB,
                        GA := 0, GB := 0, XTX := X * Xᵀ } }
  engineFit (fun t => { t with A := onehotA indsA })
    (fun t => { t with B := onehotB indsB })
    (pgdOptimA β nIter maxLS) (pgdOptimB β nIter maxLS) X maxIter tol s'

/-- A freshly constructed pgd estimator: _check_parameters_ sets both step
sizes to the learning rate; the matrix attributes do not exist yet before
fit and are represented by zeroes (fit overwrites them before any read). -/
def pgdFresh (lr : α) : PGDSt α n k f :=
  ⟨0, 0, 0, [], ⟨lr, lr, 0, 0, 0⟩⟩

/-! ### Non-negative least squares strategy (nnls) -/

/-- The shape family of the external simplex solver archetypes.utils.nnls
(code of the repository outside this file): given a design matrix D of
shape a by c, a target T of shape b by c and an iteration bound, return a
coefficient matrix W of shape a by b with W @ T approximating D.  The
solver itself is a parameter; the spec describes it only at its
interface. -/
abbrev NNLSSolver (α : Type) : Type :=
  (a b c : ℕ) → Mat a c α → Mat b c α → Option ℕ → Mat a b α

/-- _nnls_optim_B: archetypes_ := pinv(A_) @ X, then B_ := nnls of
(design = that estimate, target = X).  The Moore-Penrose pseudo-inverse
np.linalg.pinv is an external numerical routine, passed as a parameter. -/
def nnlsOptimB (pinv : Mat n k α → Mat k n α) (nnls : NNLSSolver α)
    (mi : Option ℕ) (X : Mat n f α) (s : AASt α n k f Unit) :
    AASt α n k f Unit :=
  let Zest := pinv s.A * X
  { s with archetypes := Zest, B := nnls k n f Zest X mi }

/-- _nnls_optim_A: A_ := nnls of (design = X, target = archetypes_). -/
def nnlsOptimA (nnls : NNLSSolver α) (mi : Option ℕ) (X : Mat n f α)
    (s : AASt α n k f Unit) : AASt α n k f Unit :=
  { s with A := nnls n k f X s.archetypes mi }

/-- _nnls_fit: delegate directly to the generic engine fit. -/
def nnlsFit (pinv : Mat n k α → Mat k n α) (nnls : NNLSSolver α)
    (mi : Option ℕ) (X : Mat n f α) (indsA : Fin n → Fin k)
    (indsB : Fin k → Fin n) (maxIter : ℕ) (tol : α)
    (s : AASt α n k f Unit) : AASt α n k f Unit :=
  engineFit (fun t => { t with A := onehotA indsA })
    (fun t => { t with B := onehotB indsB })
    (nnlsOptimA nnls mi X) (nnlsOptimB pinv nnls mi X) X maxIter tol s

/-! ### Autodiff strategy (jax), over the reals -/

/-- Strategy-private attributes of the jax strategy: the unconstrained
logits A_opt_, B_opt_ and the two optax optimizer states (of abstract
types, since optax is an external collaborator). -/
structure JaxExtra (n k : ℕ) (τA τB : Type) where
  Aopt : Mat n k ℝ
  Bopt : Mat k n ℝ
  stA : τA
  stB : τB

abbrev JaxSt (n k f : ℕ) (τA τB : Type) := AASt ℝ n k f (JaxExtra n k τA τB)

/-- jax.nn.softmax with axis=1 (row-wise), as used on A_opt_ and B_opt_. -/
noncomputable def softmaxRow (M : Mat a b ℝ) : Mat a b ℝ :=
  fun i j => Real.exp (M i j) / ∑ j', Real.exp (M i j')

/-- Squared Frobenius reconstruction error of X from A and B directly,
namely the sum of the squares of the entries of X - A @ (B @ X).  This is
the loss the spec speaks about. -/
def lossABX (X : Mat n f α) (A : Mat n k α) (B : Mat k n α) : α :=
  ∑ i, ∑ j, (X i j - (A * (B * X)) i j) ^ 2

/-- Squared Frobenius norm of a matrix. -/
def normSq (M : Mat a b α) : α := ∑ i, ∑ j, (M i j) ^ 2

/-- _jax_loss: optax.l2_loss(X - A @ B @ X).sum().  The optax l2 loss of a
residual r is r squared over two (optax documented semantics), so this is
one half of the squared Frobenius reconstruction error. -/
noncomputable def jaxLoss (X : Mat n f ℝ) (A : Mat n k ℝ) (B : Mat k n ℝ) : ℝ :=
  ∑ i, ∑ j, (1 / 2) * (X i j - (A * (B * X)) i j) ^ 2

/-- The value produced by grad(_jax_loss, argnums=1)(X, A, B): automatic
differentiation computes the exact mathematical gradient of _jax_loss with
respect to its second argument A (the constrained matrix itself, not the
logits), which in closed form is -(X - A B X) (B X) transposed.  A
lemma below certifies this closed form against jaxLoss by checking every
directional derivative. -/
def jaxGradA (X : Mat n f ℝ) (A : Mat n k ℝ) (B : Mat k n ℝ) :
    Mat n k ℝ :=
  -((X - A * (B * X)) * (B * X)ᵀ)

/-- The value produced by grad(_jax_loss, argnums=2)(X, A, B), in closed
form. -/
def jaxGradB (X : Mat n f ℝ) (A : Mat n k ℝ) (B : Mat k n ℝ) :
    Mat k n ℝ :=
  -(Aᵀ * ((X - A * (B * X)) * Xᵀ))

/-- jax_optim_A: compute the gradient of _jax_loss with respect to A_ at
(X, A_, B_), feed it to the A optimizer (optax update, an abstract
parameter), add the returned update to the logits A_opt_ (optax
apply_updates), and set A_ to the row-wise softmax of the new logits. -/
noncomputable def jaxOptimA (updA : Mat n k ℝ → τA → Mat n k ℝ × τA)
    (X : Mat n f ℝ) (s : JaxSt n k f τA τB) : JaxSt n k f τA τB :=
  let g := jaxGradA X s.A s.B
  let u := updA g s.extra.stA
  let Aopt := s.extra.Aopt + u.1
  { s with A := softmaxRow Aopt,
           extra := { s.extra with Aopt := Aopt, stA := u.2 } }

/-- jax_optim_B, symmetric to jax_optim_A. -/
noncomputable def jaxOptimB (updB : Mat k n ℝ → τB → Mat k n ℝ × τB)
    (X : Mat n f ℝ) (s : JaxSt n k f τA τB) : JaxSt n k f τA τB :=
  let g := jaxGradB X s.A s.B
  let u := updB g s.extra.stB
  let Bopt := s.extra.Bopt + u.1
  { s with B := softmaxRow Bopt,
           extra := { s.extra with Bopt := Bopt, stB := u.2 } }

/-- _jax_init_A: one-hot A_, copied into the logits A_opt_, and the A
optimizer state built from the logits (optimizer init is an abstract
parameter). -/
noncomputable def jaxInitA (stA0 : Mat n k ℝ → τA) (indsA : Fin n → Fin k)
    (s : JaxSt n k f τA τB) : JaxSt n k f τA τB :=
  let A0 : Mat n k ℝ := onehotA indsA
  { s with A := A0, extra := { s.extra with Aopt := A0, stA := stA0 A0 } }

/-- _jax_init_B, symmetric to _jax_init_A. -/
noncomputable def jaxInitB (stB0 : Mat k n ℝ → τB) (indsB : Fin k → Fin n)
    (s : JaxSt n k f τA τB) : JaxSt n k f τA τB :=
  let B0 : Mat k n ℝ := onehotB indsB
  { s with B := B0, extra := { s.extra with Bopt := B0, stB := stB0 B0 } }

/-- _jax_fit: the two optimizer instances are abstract parameters (their
construction has no observable effect in the model), so fitting is the
generic engine fit with the jax operations. -/
noncomputable def jaxFit (stA0 : Mat n k ℝ → τA) (stB0 : Mat k n ℝ → τB)
    (updA : Mat n k ℝ → τA → Mat n k ℝ × τA)
    (updB : Mat k n ℝ → τB → Mat k n ℝ × τB) (X : Mat n f ℝ)
    (indsA : Fin n → Fin k) (indsB : Fin k → Fin n) (maxIter : ℕ)
    (tol : ℝ) (s : JaxSt n k f τA τB) : JaxSt n k f τA τB :=
  engineFit (jaxInitA stA0 indsA) (jaxInitB stB0 indsB) (jaxOptimA updA X)
    (jaxOptimB updB X) X maxIter tol s

/-- The reconstruction loss of the claim, as a function of the logits of
A with B held fixed: the matrix A used in the product is the row-wise
softmax of the logits.  This definition follows the words of the spec
(gradient with respect to the logits tensor); the code differentiates
jaxLoss with respect to A itself instead. -/
noncomputable def specLossOfLogitsA (X : Mat n f ℝ) (L : Mat n k ℝ)
    (B : Mat k n ℝ) : ℝ :=
  lossABX X (softmaxRow L) B

/-! ### Predicates used in the theorem statements -/

/-- Every entry nonnegative and every row summing to one. -/
def RowStochastic (M : Mat a b α) : Prop :=
  (∀ i j, 0 ≤ M i j) ∧ ∀ i, ∑ j, M i j = 1

/-- Every entry at least minus eps and every row sum within eps of one. -/
def ApproxRowStochastic (eps : α) (M : Mat a b α) : Prop :=
  (∀ i j, -eps ≤ M i j) ∧ ∀ i, |(∑ j, M i j) - 1| ≤ eps

/-- Every column of M is a point of the probability simplex. -/
def ColSimplex (M : Mat a b α) : Prop :=
  (∀ i j, 0 ≤ M i j) ∧ ∀ j, ∑ i, M i j = 1

/-- Interface of the simplex solver as the spec describes it: the returned
coefficients are nonnegative and each coefficient row sums to one within
the solver tolerance eps. -/
def SolverOnSimplex (eps : α) (nnls : NNLSSolver α) : Prop :=
  ∀ a b c (D : Mat a c α) (T : Mat b c α) mi,
    ApproxRowStochastic eps (nnls a b c D T mi) ∧
    ∀ i j, 0 ≤ nnls a b c D T mi i j

/-! ### Concrete instances used by counterexamples and witnesses -/

/-- Data matrix of the concrete pgd runs: three samples, one feature. -/
def X31 : Mat 3 1 ℚ := fun i _ => if i = 0 then 0 else if i = 1 then 1 else -2

/-- Concrete pgd fit on X31: one archetype, beta one half, learning rate
one, one gradient step, one line-search trial, one outer iteration. -/
def pgdRun1 : PGDSt ℚ 3 1 1 :=
  pgdFit (1 / 2) 1 1 X31 (fun _ => 0) (fun _ => 0) 1 (1 / 10000)
    (pgdFresh 1)

/-- The same fit called a second time on the state left by the first call
(same data, same draws). -/
def pgdRun2 : PGDSt ℚ 3 1 1 :=
  pgdFit (1 / 2) 1 1 X31 (fun _ => 0) (fun _ => 0) 1 (1 / 10000) pgdRun1

/-- Data matrix of the concrete accepting pgd run: two samples, one
feature. -/
def X21 : Mat 2 1 ℚ := fun i _ => if i = 0 then 0 else 1

/-- A pgd state about to start an outer iteration on X21: one-hot A and B,
archetypes consistent, Gram matrix in place, both step sizes one. -/
def acceptSt : PGDSt ℚ 2 1 1 :=
  computeArchetypes X21
    ⟨onehotA (fun _ => 0), onehotB (fun _ => 0), 0, [],
      ⟨1, 1, 0, 0, X21 * X21ᵀ⟩⟩

/-- The engine state entering the single outer iteration of pgdRun1 (the
loss list recorded so far plays no role in the optimizers). -/
def init31 : PGDSt ℚ 3 1 1 :=
  computeArchetypes X31
    ⟨onehotA (fun _ => 0), onehotB (fun _ => 0), 0, [],
      ⟨1, 1, 0, 0, X31 * X31ᵀ⟩⟩

/-- The state entering _pgd_optim_B inside the single iteration of
pgdRun1. -/
def rejSt : PGDSt ℚ 3 1 1 := pgdOptimA (1 / 2) 1 1 init31

/-- Auxiliary concrete matrix of the rejecting line search inside
pgdRun1: the transposed B entering the search. -/
def wSprev : Mat 3 1 ℚ := fun i _ => if i = 0 then 1 else 0

/-- All-ones column, the value of A in the concrete rejecting run. -/
def onesM : Mat 3 1 ℚ := fun _ _ => 1

/-- The one-entry matrix holding S times S transposed in the concrete
rejecting run. -/
def threeM : Mat 1 1 ℚ := fun _ _ => 3

/-- Every consecutive difference of the list is at least tol in absolute
value (used to state that the engine stops at the first iteration whose
loss difference falls below tol). -/
def diffsGe (tol : α) (l : List α) : Prop :=
  ∀ i, i + 2 ≤ l.length → tol ≤ |l.getD (i + 1) 0 - l.getD i 0|

/-- A concrete simplex-solver behavior for the counterexamples: it always
returns the coefficient matrix putting full weight on the first column, a
valid point of the row simplex (best-effort output of a bounded solver). -/
def nnlsCx : NNLSSolver ℚ := fun _ _ _ _ _ _ => fun _ j =>
  if (j : ℕ) = 0 then 1 else 0

/-- The Moore-Penrose pseudo-inverse at the one concrete matrix where the
counterexample calls it: pinv of the all-ones 2 by 1 matrix is the row
with both entries one half. -/
def pinvCx : Mat 2 1 ℚ → Mat 1 2 ℚ := fun _ => fun _ _ => 1 / 2

/-- Data matrix of the nnls counterexample: samples 0 and 4. -/
def Xcx : Mat 2 1 ℚ := fun i _ => if i = 0 then 0 else 4

/-- The nnls engine state entering optimize-B: one-hot A (all samples on
the single archetype), one-hot B on sample 0, archetypes consistent. -/
def cxSt : AASt ℚ 2 1 1 Unit :=
  computeArchetypes Xcx ⟨onehotA (fun _ => 0), onehotB (fun _ => 0), 0, [], ()⟩

/-- The all-zero solver behavior: a degenerate but interface-conforming
simplex-solver output used to instantiate the nnls conjunct of the simplex
theorem at tolerance one. -/
def zeroSolver : NNLSSolver ℚ := fun _ _ _ _ _ _ => 0

/-- One-entry real data matrix for the jax witness. -/
noncomputable def oneR : Mat 1 1 ℝ := fun _ _ => 1

/-- A pre-fit jax state for the witness (its fields are overwritten by the
initializers before being read). -/
noncomputable def jaxW : JaxSt 1 1 1 Unit Unit := ⟨0, 0, 0, [], ⟨0, 0, (), ()⟩⟩

/-- A one-hot direction matrix: 1 at entry (p, q) and 0 elsewhere, the
direction along which a partial derivative of the loss probes one entry of
A (or B). -/
noncomputable def dirAt {a b : ℕ} (p : Fin a) (q : Fin b) : Mat a b ℝ :=
  fun i j => if i = p ∧ j = q then 1 else 0

/-- Concrete data for the jax gradient counterexample: two samples of one
feature, values 1 and 0. -/
noncomputable def Xj : Mat 2 1 ℝ := fun i _ => if i = 0 then 1 else 0

/-- The A matrix at the first optimize-A call of a jax fit on Xj: the
one-hot initial A (with a single archetype every row is 1, which is also
exactly the range of the row softmax of any logits). -/
noncomputable def Aj : Mat 2 1 ℝ := onehotA (fun _ => 0)

/-- The B matrix at the first optimize-A call of a jax fit on Xj: one-hot
on the first sample. -/
noncomputable def Bj : Mat 1 2 ℝ := onehotB (fun _ => 0)

/-- A pre-fit jax state for the gradient counterexample (overwritten by
the initializers before being read). -/
noncomputable def jaxCxSt : JaxSt 2 1 1 Unit Unit := ⟨0, 0, 0, [], ⟨0, 0, (), ()⟩⟩

/-! ## Helper lemmas -/

lemma hadSum_eq_trace (M N : Mat a b α) : hadSum M N = (M * Nᵀ).trace := by
  simp [hadSum, Matrix.trace, Matrix.diag, Matrix.mul_apply,
    Matrix.transpose_apply]

lemma lossABX_expand (X : Mat n f α) (A : Mat n k α) (B : Mat k n α) :
    lossABX X A B =
      normSq X - 2 * hadSum X (A * (B * X)) +
        hadSum (A * (B * X)) (A * (B * X)) := by
  unfold lossABX normSq hadSum
  have h : ∀ i j, (X i j - (A * (B * X)) i j) ^ 2
      = X i j ^ 2 - 2 * (X i j * (A * (B * X)) i j) +
        (A * (B * X)) i j * (A * (B * X)) i j := by
    intro i j; ring
  simp_rw [h, Finset.sum_add_distrib, Finset.sum_sub_distrib,
    ← Finset.mul_sum]

lemma hadSum_cross (X : Mat n f α) (A : Mat n k α) (B : Mat k n α) :
    hadSum X (A * (B * X)) = hadSum (B * (X * Xᵀ)) Aᵀ := by
  rw [hadSum_eq_trace, hadSum_eq_trace, Matrix.transpose_transpose]
  have h1 : X * (A * (B * X))ᵀ = (A * (B * (X * Xᵀ)))ᵀ := by
    simp [Matrix.transpose_mul, Matrix.mul_assoc]
  rw [h1, Matrix.trace_transpose, Matrix.trace_mul_comm,
    Matrix.mul_assoc]

lemma hadSum_square (X : Mat n f α) (A : Mat n k α) (B : Mat k n α) :
    hadSum (A * (B * X)) (A * (B * X)) =
      hadSum (B * (X * Xᵀ) * Bᵀ) (Aᵀ * A) := by
  rw [hadSum_eq_trace, hadSum_eq_trace]
  have h2 : (Aᵀ * A)ᵀ = Aᵀ * A := by
    simp [Matrix.transpose_mul]
  rw [h2]
  have h3 : (A * (B * X)) * (A * (B * X))ᵀ
      = A * ((B * (X * Xᵀ) * Bᵀ) * Aᵀ) := by
    simp [Matrix.transpose_mul, Matrix.mul_assoc]
  rw [h3, Matrix.trace_mul_comm, Matrix.mul_assoc]

lemma quadA_shifted_loss (X : Mat n f α) (A : Mat n k α) (B : Mat k n α) :
    quadA ((Bᵀ)ᵀ * (X * Xᵀ)) ((Bᵀ)ᵀ * (X * Xᵀ) * Bᵀ) Aᵀ
      = lossABX X A B - normSq X := by
  rw [lossABX_expand]
  unfold quadA
  simp only [Matrix.transpose_transpose]
  rw [← hadSum_cross, ← hadSum_square]
  ring

lemma hadSum_cross2 (X : Mat n f α) (A : Mat n k α) (B : Mat k n α) :
    hadSum ((X * Xᵀ) * A) Bᵀ = hadSum (B * (X * Xᵀ)) Aᵀ := by
  rw [hadSum_eq_trace, hadSum_eq_trace, Matrix.transpose_transpose,
    Matrix.transpose_transpose, Matrix.trace_mul_comm,
    ← Matrix.mul_assoc]

lemma quadB_shifted_loss (X : Mat n f α) (A : Mat n k α) (B : Mat k n α) :
    quadB ((X * Xᵀ) * (Aᵀ)ᵀ) (X * Xᵀ) (Aᵀ * (Aᵀ)ᵀ) Bᵀ
      = lossABX X A B - normSq X := by
  rw [lossABX_expand]
  unfold quadB
  simp only [Matrix.transpose_transpose]
  rw [hadSum_cross2, ← hadSum_cross, ← hadSum_square]
  ring

/-! ## Claim theorems -/

/-- C5 (confirmed): the quadratic forms evaluated inside _pgd_optim_A and
_pgd_optim_B, with the arguments exactly as the code builds them from
C = B.T, S = A.T and XTX = X @ X.T, equal the full reconstruction loss
of X from A and B minus the constant squared norm of X; consequently every
comparison of two quadratic-form values agrees with the comparison of the
corresponding full reconstruction losses. -/
theorem pgd_quad_form_is_shifted_loss
    (X : Mat n f ℚ) (A A2 : Mat n k ℚ) (B B2 : Mat k n ℚ) :
    (quadA ((Bᵀ)ᵀ * (X * Xᵀ)) ((Bᵀ)ᵀ * (X * Xᵀ) * Bᵀ) Aᵀ
        = lossABX X A B - normSq X) ∧
    (quadB ((X * Xᵀ) * (Aᵀ)ᵀ) (X * Xᵀ) (Aᵀ * (Aᵀ)ᵀ) Bᵀ
        = lossABX X A B - normSq X) ∧
    (quadA ((Bᵀ)ᵀ * (X * Xᵀ)) ((Bᵀ)ᵀ * (X * Xᵀ) * Bᵀ) A2ᵀ
        ≤ quadA ((Bᵀ)ᵀ * (X * Xᵀ)) ((Bᵀ)ᵀ * (X * Xᵀ) * Bᵀ) Aᵀ ↔
      lossABX X A2 B ≤ lossABX X A B) ∧
    (quadB ((X * Xᵀ) * (Aᵀ)ᵀ) (X * Xᵀ) (Aᵀ * (Aᵀ)ᵀ) B2ᵀ
        ≤ quadB ((X * Xᵀ) * (Aᵀ)ᵀ) (X * Xᵀ) (Aᵀ * (Aᵀ)ᵀ) Bᵀ ↔
      lossABX X A B2 ≤ lossABX X A B) := by
  refine ⟨quadA_shifted_loss X A B, quadB_shifted_loss X A B, ?_, ?_⟩
  · rw [quadA_shifted_loss X A B, quadA_shifted_loss X A2 B]
    exact sub_le_sub_iff_right _
  · rw [quadB_shifted_loss X A B, quadB_shifted_loss X A B2]
    exact sub_le_sub_iff_right _

lemma lineSearch_succ_accept (qf : Mat a b α → α)
    (proj : Mat a b α → Mat a b α) (β : α) (Sprev GS : Mat a b α)
    (m : ℕ) (step : α) (Scur : Mat a b α) (rssp : α)
    (h : qf (proj fun i j => Sprev i j - step * GS i j) ≤ rssp) :
    lineSearch qf proj β Sprev GS (m + 1) step Scur rssp =
      ⟨proj fun i j => Sprev i j - step * GS i j, step / β,
        qf (proj fun i j => Sprev i j - step * GS i j), true⟩ := by
  rw [lineSearch]
  exact if_pos h

lemma lineSearch_succ_reject (qf : Mat a b α → α)
    (proj : Mat a b α → Mat a b α) (β : α) (Sprev GS : Mat a b α)
    (m : ℕ) (step : α) (Scur : Mat a b α) (rssp : α)
    (h : ¬ qf (proj fun i j => Sprev i j - step * GS i j) ≤ rssp) :
    lineSearch qf proj β Sprev GS (m + 1) step Scur rssp =
      lineSearch qf proj β Sprev GS m (step * β)
        (proj fun i j => Sprev i j - step * GS i j) rssp := by
  rw [lineSearch]
  exact if_neg h

lemma lineSearch_acc (qf : Mat a b α → α) (proj : Mat a b α → Mat a b α)
    (β : α) (Sprev GS : Mat a b α) : ∀ (m : ℕ) (step : α)
    (Scur : Mat a b α) (rssp : α),
    (lineSearch qf proj β Sprev GS m step Scur rssp).acc = true →
    (lineSearch qf proj β Sprev GS m step Scur rssp).rssp =
      qf (lineSearch qf proj β Sprev GS m step Scur rssp).S ∧
    (lineSearch qf proj β Sprev GS m step Scur rssp).rssp ≤ rssp := by
  intro m
  induction m with
  | zero => intro step Scur rssp h; simp [lineSearch] at h
  | succ m ih =>
    intro step Scur rssp h
    by_cases hc : qf (proj fun i j => Sprev i j - step * GS i j) ≤ rssp
    · rw [lineSearch_succ_accept qf proj β Sprev GS m step Scur rssp hc]
        at h ⊢
      exact ⟨rfl, hc⟩
    · rw [lineSearch_succ_reject qf proj β Sprev GS m step Scur rssp hc]
        at h ⊢
      exact ih _ _ _ h

lemma gradStepsA_acc_false (CTXTX : Mat k n α) (CTXTXC : Mat k k α)
    (β : α) (maxLS : ℕ) : ∀ (m : ℕ) (S GS : Mat k n α) (step rssp : α),
    (gradStepsA CTXTX CTXTXC β maxLS m S GS step rssp false).acc = false := by
  intro m
  induction m with
  | zero => intro S GS step rssp; rfl
  | succ m ih => intro S GS step rssp; rw [gradStepsA]; exact ih _ _ _ _

lemma gradStepsB_acc_false (XTX : Mat n n α) (XTXST : Mat n k α)
    (SST : Mat k k α) (β : α) (maxLS : ℕ) :
    ∀ (m : ℕ) (C GC : Mat n k α) (step rssp : α),
    (gradStepsB XTX XTXST SST β maxLS m C GC step rssp false).acc = false := by
  intro m
  induction m with
  | zero => intro C GC step rssp; rfl
  | succ m ih => intro C GC step rssp; rw [gradStepsB]; exact ih _ _ _ _

lemma gradStepsA_descent (CTXTX : Mat k n α) (CTXTXC : Mat k k α)
    (β : α) (maxLS : ℕ) : ∀ (m : ℕ) (S GS : Mat k n α) (step : α),
    (gradStepsA CTXTX CTXTXC β maxLS m S GS step
      (quadA CTXTX CTXTXC S) true).acc = true →
    quadA CTXTX CTXTXC (gradStepsA CTXTX CTXTXC β maxLS m S GS step
      (quadA CTXTX CTXTXC S) true).S ≤ quadA CTXTX CTXTXC S := by
  intro m
  induction m with
  | zero => intro S GS step _; exact le_refl _
  | succ m ih =>
    intro S GS step hacc
    rw [gradStepsA] at hacc ⊢
    set GS2 : Mat k n α := fun i j =>
      (CTXTXC * S - CTXTX) i j - ∑ i', (CTXTXC * S - CTXTX) i' j * S i' j
      with hGS2
    set r := lineSearch (quadA CTXTX CTXTXC) projA β S GS2 maxLS step S
      (quadA CTXTX CTXTXC S) with hr
    by_cases ha : r.acc
    · have hs := lineSearch_acc (quadA CTXTX CTXTXC) projA β S GS2 maxLS
        step S (quadA CTXTX CTXTXC S) ha
      have hb : (true && r.acc) = true := by simp [ha]
      rw [hb] at hacc ⊢
      have h2 := ih r.S GS2 r.step (by rw [← hs.1]; exact hacc)
      rw [← hs.1] at h2
      exact le_trans h2 hs.2
    · have hb : (true && r.acc) = false := by simp [ha]
      rw [hb] at hacc
      rw [gradStepsA_acc_false] at hacc
      exact absurd hacc (by simp)

lemma gradStepsB_descent (XTX : Mat n n α) (XTXST : Mat n k α)
    (SST : Mat k k α) (β : α) (maxLS : ℕ) :
    ∀ (m : ℕ) (C GC : Mat n k α) (step : α),
    (gradStepsB XTX XTXST SST β maxLS m C GC step
      (quadB XTXST XTX SST C) true).acc = true →
    quadB XTXST XTX SST (gradStepsB XTX XTXST SST β maxLS m C GC step
      (quadB XTXST XTX SST C) true).S ≤ quadB XTXST XTX SST C := by
  intro m
  induction m with
  | zero => intro C GC step _; exact le_refl _
  | succ m ih =>
    intro C GC step hacc
    rw [gradStepsB] at hacc ⊢
    set GC2 : Mat n k α := fun i j =>
      (XTX * C * SST - XTXST) i j - ∑ i', (XTX * C * SST - XTXST) i' j * C i' j
      with hGC2
    set r := lineSearch (quadB XTXST XTX SST) projB β C GC2 maxLS step C
      (quadB XTXST XTX SST C) with hr
    by_cases ha : r.acc
    · have hs := lineSearch_acc (quadB XTXST XTX SST) projB β C GC2 maxLS
        step C (quadB XTXST XTX SST C) ha
      have hb : (true && r.acc) = true := by simp [ha]
      rw [hb] at hacc ⊢
      have h2 := ih r.S GC2 r.step (by rw [← hs.1]; exact hacc)
      rw [← hs.1] at h2
      exact le_trans h2 hs.2
    · have hb : (true && r.acc) = false := by simp [ha]
      rw [hb] at hacc
      rw [gradStepsB_acc_false] at hacc
      exact absurd hacc (by simp)

lemma lossFn_eq_lossABX (X : Mat n f α) (s : AASt α n k f η)
    (hZ : s.archetypes = s.B * X) : lossFn X s = lossABX X s.A s.B := by
  unfold lossFn lossABX
  rw [hZ]

lemma pgdOptimA_loss_le (β : α) (nI mL : ℕ) (X : Mat n f α)
    (s : PGDSt α n k f) (hG : s.extra.XTX = X * Xᵀ)
    (hacc : (pgdOptimACore β nI mL s).acc = true) :
    lossABX X (pgdOptimA β nI mL s).A s.B ≤ lossABX X s.A s.B := by
  have hA : (pgdOptimA β nI mL s).A = (pgdOptimACore β nI mL s).Sᵀ := rfl
  have hd := gradStepsA_descent ((s.Bᵀ)ᵀ * s.extra.XTX)
    ((s.Bᵀ)ᵀ * s.extra.XTX * s.Bᵀ) β mL nI s.Aᵀ s.extra.GAᵀ
    s.extra.stepA hacc
  have hd2 : quadA ((s.Bᵀ)ᵀ * s.extra.XTX) ((s.Bᵀ)ᵀ * s.extra.XTX * s.Bᵀ)
      (pgdOptimACore β nI mL s).S ≤ quadA ((s.Bᵀ)ᵀ * s.extra.XTX)
      ((s.Bᵀ)ᵀ * s.extra.XTX * s.Bᵀ) s.Aᵀ := hd
  have e1 := quadA_shifted_loss X ((pgdOptimACore β nI mL s).Sᵀ) s.B
  have e2 := quadA_shifted_loss X s.A s.B
  rw [← hG] at e1 e2
  simp only [Matrix.transpose_transpose] at hd2 e1 e2
  rw [hA]
  linarith [e1, e2, hd2]

lemma pgdOptimB_loss_le (β : α) (nI mL : ℕ) (X : Mat n f α)
    (s : PGDSt α n k f) (hG : s.extra.XTX = X * Xᵀ)
    (hacc : (pgdOptimBCore β nI mL s).acc = true) :
    lossABX X s.A (pgdOptimB β nI mL s).B ≤ lossABX X s.A s.B := by
  have hB : (pgdOptimB β nI mL s).B = (pgdOptimBCore β nI mL s).Sᵀ := rfl
  have hd := gradStepsB_descent s.extra.XTX (s.extra.XTX * (s.Aᵀ)ᵀ)
    (s.Aᵀ * (s.Aᵀ)ᵀ) β mL nI s.Bᵀ s.extra.GBᵀ s.extra.stepB hacc
  have hd2 : quadB (s.extra.XTX * (s.Aᵀ)ᵀ) s.extra.XTX (s.Aᵀ * (s.Aᵀ)ᵀ)
      (pgdOptimBCore β nI mL s).S ≤ quadB (s.extra.XTX * (s.Aᵀ)ᵀ)
      s.extra.XTX (s.Aᵀ * (s.Aᵀ)ᵀ) s.Bᵀ := hd
  have e1 := quadB_shifted_loss X s.A ((pgdOptimBCore β nI mL s).Sᵀ)
  have e2 := quadB_shifted_loss X s.A s.B
  rw [← hG] at e1 e2
  simp only [Matrix.transpose_transpose] at hd2 e1 e2
  rw [hB]
  linarith [e1, e2, hd2]

/-- C1 (corrected, amended form): for the pgd strategy, an outer iteration
in which every line search ends in acceptance does not increase the
recorded loss: starting from a state whose archetypes and Gram matrix are
consistent (as they are whenever the engine loop reaches the strategy),
the loss recorded after optimize-A, optimize-B and the archetype
recomputation is at most the previously recorded loss.  Without the
acceptance hypotheses the claim is false (see the counterexample): when
every trial of a line search rejects, the last rejected point is kept and
the recorded loss can increase.  For the nnls strategy the claimed
monotonicity rests on the external least-squares solver and is not a
property of this code. -/
theorem pgd_iteration_loss_nonincreasing_of_accepts
    (β : ℚ) (nI mL : ℕ) (X : Mat n f ℚ) (s : PGDSt ℚ n k f)
    (hZ : s.archetypes = s.B * X) (hG : s.extra.XTX = X * Xᵀ)
    (hA : (pgdOptimACore β nI mL s).acc = true)
    (hB : (pgdOptimBCore β nI mL (pgdOptimA β nI mL s)).acc = true) :
    lossFn X (computeArchetypes X (pgdOptimB β nI mL (pgdOptimA β nI mL s)))
      ≤ lossFn X s := by
  set s1 := pgdOptimA β nI mL s with hs1
  have f1 : s1.B = s.B := rfl
  have f2 : s1.extra.XTX = s.extra.XTX := rfl
  have f3 : (pgdOptimB β nI mL s1).A = s1.A := rfl
  have l0 : lossFn X s = lossABX X s.A s.B := lossFn_eq_lossABX X s hZ
  have l2 : lossFn X (computeArchetypes X (pgdOptimB β nI mL s1)) =
      lossABX X (pgdOptimB β nI mL s1).A (pgdOptimB β nI mL s1).B :=
    lossFn_eq_lossABX X _ rfl
  have stepA := pgdOptimA_loss_le β nI mL X s hG hA
  have stepB := pgdOptimB_loss_le β nI mL X s1 (f2.trans hG) hB
  rw [f1] at stepB
  rw [l0, l2, f3]
  exact le_trans stepB stepA

/-- C1 witness: a concrete pgd iteration (two samples, one archetype,
learning rate one) in which both line searches accept, with the recorded
loss going from 1 down to one half. -/
theorem pgd_iteration_loss_nonincreasing_of_accepts_witness :
    (pgdOptimACore (1 / 2) 1 1 acceptSt).acc = true ∧
    (pgdOptimBCore (1 / 2) 1 1 (pgdOptimA (1 / 2) 1 1 acceptSt)).acc
      = true ∧
    lossFn X21 (computeArchetypes X21 (pgdOptimB (1 / 2) 1 1
      (pgdOptimA (1 / 2) 1 1 acceptSt))) ≤ lossFn X21 acceptSt := by
  have hA : (pgdOptimACore (1 / 2) 1 1 acceptSt).acc = true := by
    norm_num [pgdOptimACore, gradStepsA, lineSearch, projA, clampA,
      colNormalize, quadA, hadSum, theta, acceptSt, computeArchetypes,
      onehotA, onehotB, X21, Matrix.mul_apply, Matrix.transpose_apply,
      Matrix.sub_apply, Fin.sum_univ_two, Fin.sum_univ_one, Fin.ext_iff]
  have hB : (pgdOptimBCore (1 / 2) 1 1 (pgdOptimA (1 / 2) 1 1 acceptSt)).acc
      = true := by
    norm_num [pgdOptimBCore, pgdOptimA, pgdOptimACore, gradStepsA,
      gradStepsB, lineSearch, projA, projB, clampA, clampB, colNormalize,
      quadA, quadB, hadSum, theta, acceptSt, computeArchetypes, onehotA,
      onehotB, X21, Matrix.mul_apply, Matrix.transpose_apply,
      Matrix.sub_apply, Fin.sum_univ_two, Fin.sum_univ_one, Fin.ext_iff]
  exact ⟨hA, hB,
    pgd_iteration_loss_nonincreasing_of_accepts (1 / 2) 1 1 X21 acceptSt
      rfl rfl hA hB⟩

/-- C1 counterexample: a complete pgd fit (three samples, one archetype,
one feature, learning rate one, one trial per line search, one outer
iteration) whose recorded loss history increases from 5 to 23 thirds: the
only line-search trial of optimize-B is rejected, yet the rejected point
is persisted into B, so the recorded history is not non-increasing. -/
theorem pgd_loss_history_increases_cx :
    pgdRun1.loss_ = [5, 23 / 3] ∧
    ¬ pgdRun1.loss_.getD 1 0 ≤ pgdRun1.loss_.getD 0 0 := by
  have h : pgdRun1.loss_ = [5, 23 / 3] := by
    norm_num [pgdRun1, pgdFit, engineFit, fitLoop, ite_self,
      computeArchetypes, lossFn, onehotA, onehotB, pgdOptimA, pgdOptimB,
      pgdOptimACore, pgdOptimBCore, gradStepsA, gradStepsB, lineSearch,
      projA, projB, clampA, clampB, colNormalize, quadA, quadB, hadSum,
      theta, X31, pgdFresh, Matrix.mul_apply, Matrix.transpose_apply,
      Matrix.sub_apply, Fin.sum_univ_three, Fin.sum_univ_one, Fin.ext_iff]
  refine ⟨h, ?_⟩
  rw [h]
  norm_num

lemma lineSearch_all_reject (qf : Mat a b α → α)
    (proj : Mat a b α → Mat a b α) (β : α) (Sprev GS : Mat a b α) :
    ∀ (m' : ℕ) (step rssp : α) (Scur : Mat a b α),
    (∀ j, j < m' + 1 →
      rssp < qf (proj fun i j' => Sprev i j' - step * β ^ j * GS i j')) →
    lineSearch qf proj β Sprev GS (m' + 1) step Scur rssp =
      ⟨proj fun i j' => Sprev i j' - step * β ^ m' * GS i j',
        step * β ^ (m' + 1), rssp, false⟩ := by
  intro m'
  induction m' with
  | zero =>
    intro step rssp Scur hrej
    have h0 := hrej 0 (by omega)
    have e0 : (fun i j' => Sprev i j' - step * β ^ 0 * GS i j')
        = fun i j' => Sprev i j' - step * GS i j' := by
      funext i j'; ring
    rw [e0] at h0
    rw [lineSearch_succ_reject qf proj β Sprev GS 0 step Scur rssp
      (not_le.mpr h0)]
    rw [lineSearch, e0, show step * β ^ 1 = step * β by ring]
  | succ m' ih =>
    intro step rssp Scur hrej
    have h0 := hrej 0 (by omega)
    have e0 : (fun i j' => Sprev i j' - step * β ^ 0 * GS i j')
        = fun i j' => Sprev i j' - step * GS i j' := by
      funext i j'; ring
    rw [e0] at h0
    rw [lineSearch_succ_reject qf proj β Sprev GS (m' + 1) step Scur rssp
      (not_le.mpr h0)]
    have hrej' : ∀ j, j < m' + 1 → rssp <
        qf (proj fun i j' => Sprev i j' - step * β * β ^ j * GS i j') := by
      intro j hj
      have h1 := hrej (j + 1) (by omega)
      have e : (fun i j' => Sprev i j' - step * β ^ (j + 1) * GS i j')
          = fun i j' => Sprev i j' - step * β * β ^ j * GS i j' := by
        funext i j'; ring
      rw [e] at h1
      exact h1
    rw [ih (step * β) rssp _ hrej']
    have e1 : (fun i j' => Sprev i j' - step * β * β ^ m' * GS i j')
        = fun i j' => Sprev i j' - step * β ^ (m' + 1) * GS i j' := by
      funext i j'; ring
    rw [e1, show step * β * β ^ (m' + 1) = step * β ^ (m' + 1 + 1) by ring]

/-- C10 (confirmed): when every one of the (at least one) trials of a pgd
line search rejects (each trial loss exceeds the baseline rss_prev), the
working matrix ends at the last rejected trial point, namely the
projection of the pre-step value stepped with the final, most-shrunken
step size, the step size ends multiplied by beta once per trial, and the
baseline rss_prev is unchanged; moreover _pgd_optim_A and _pgd_optim_B
persist whatever working matrix, gradient and step size the loop produced
into A (resp. B), GA (resp. GB) and the step-size attribute, so the
rejected point is what later gradient steps and outer iterations use. -/
theorem pgd_rejected_trial_persisted :
    (∀ (a b : ℕ) (qf : Mat a b ℚ → ℚ) (proj : Mat a b ℚ → Mat a b ℚ)
        (β : ℚ) (Sprev GS : Mat a b ℚ) (m : ℕ), 1 ≤ m →
        ∀ (step rssp : ℚ) (Scur : Mat a b ℚ),
        (∀ j, j < m →
          rssp < qf (proj fun i j' =>
            Sprev i j' - step * β ^ j * GS i j')) →
        lineSearch qf proj β Sprev GS m step Scur rssp =
          ⟨proj fun i j' => Sprev i j' - step * β ^ (m - 1) * GS i j',
            step * β ^ m, rssp, false⟩) ∧
    (∀ (n' k' f' : ℕ) (β : ℚ) (nI mL : ℕ) (s : PGDSt ℚ n' k' f'),
        (pgdOptimA β nI mL s).A = (pgdOptimACore β nI mL s).Sᵀ ∧
        (pgdOptimA β nI mL s).extra.stepA
          = (pgdOptimACore β nI mL s).step ∧
        (pgdOptimA β nI mL s).extra.GA = (pgdOptimACore β nI mL s).GSᵀ ∧
        (pgdOptimB β nI mL s).B = (pgdOptimBCore β nI mL s).Sᵀ ∧
        (pgdOptimB β nI mL s).extra.stepB
          = (pgdOptimBCore β nI mL s).step) := by
  constructor
  · intro a b qf proj β Sprev GS m hm step rssp Scur hrej
    obtain ⟨m', rfl⟩ : ∃ m', m = m' + 1 := ⟨m - 1, by omega⟩
    exact lineSearch_all_reject qf proj β Sprev GS m' step rssp Scur hrej
  · intro n' k' f' β nI mL s
    exact ⟨rfl, rfl, rfl, rfl, rfl⟩

/-- C10 witness: the line search of _pgd_optim_B inside pgdRun1 (the
arguments below are the concrete values of the quadratic form, the
projection, the gradient and the baseline there): its single trial
rejects, and the output is exactly the rejected projected point with the
step size halved and the baseline unchanged. -/
theorem pgd_rejected_trial_persisted_witness :
    (∀ j, j < 1 → (2 : ℚ) < quadB ((X31 * X31ᵀ) * onesM) (X31 * X31ᵀ)
        threeM (projB fun i j' =>
          wSprev i j' - 1 * (1 / 2 : ℚ) ^ j * X31 i j')) ∧
    lineSearch (quadB ((X31 * X31ᵀ) * onesM) (X31 * X31ᵀ) threeM) projB
        (1 / 2) wSprev X31 1 1 wSprev 2 =
      ⟨projB fun i j' =>
          wSprev i j' - 1 * (1 / 2 : ℚ) ^ (1 - 1) * X31 i j',
        1 * (1 / 2 : ℚ) ^ 1, 2, false⟩ := by
  have hrej : ∀ j, j < 1 → (2 : ℚ) < quadB ((X31 * X31ᵀ) * onesM)
      (X31 * X31ᵀ) threeM (projB fun i j' =>
        wSprev i j' - 1 * (1 / 2 : ℚ) ^ j * X31 i j') := by
    intro j hj
    have hj0 : j = 0 := by omega
    subst hj0
    norm_num [quadB, projB, clampB, colNormalize, hadSum, theta, wSprev,
      onesM, threeM, X31, Matrix.mul_apply, Matrix.transpose_apply,
      Fin.sum_univ_three, Fin.sum_univ_one, Fin.ext_iff]
  exact ⟨hrej, pgd_rejected_trial_persisted.1 3 1
    (quadB ((X31 * X31ᵀ) * onesM) (X31 * X31ᵀ) threeM) projB (1 / 2)
    wSprev X31 1 (le_refl 1) 1 2 wSprev hrej⟩


/-- C6 (confirmed): the pgd line-search trial structure.  Part one: a
trial candidate is the pre-step value minus the current step size times
the gradient, projected, with loss evaluated by the quadratic form; if the
loss did not increase over the baseline the candidate is kept, the step
size is divided by beta and the loop exits, otherwise the step size is
multiplied by beta and the next of the up to max_iter_optimizer trials
runs.  Part two: each outer gradient step of _pgd_optim_A hands the
re-centered gradient, the projection projA and the quadratic form to the
line search, starting from the current S.  Part three: optimize-A does not
touch the B step size and vice versa, and each optimize call persists the
step size its loop produced.  Part four: _pgd_fit passes the step sizes
already in the state (set at construction, warm-started across fits and
iterations) into the engine loop, resetting only the gradient buffers and
the Gram matrix. -/
theorem pgd_line_search_spec :
    (∀ (a b : ℕ) (qf : Mat a b ℚ → ℚ) (proj : Mat a b ℚ → Mat a b ℚ)
        (β : ℚ) (Sprev GS : Mat a b ℚ) (m : ℕ) (step : ℚ)
        (Scur : Mat a b ℚ) (rssp : ℚ),
        (qf (proj fun i j => Sprev i j - step * GS i j) ≤ rssp →
          lineSearch qf proj β Sprev GS (m + 1) step Scur rssp =
            ⟨proj fun i j => Sprev i j - step * GS i j, step / β,
              qf (proj fun i j => Sprev i j - step * GS i j), true⟩) ∧
        (¬ qf (proj fun i j => Sprev i j - step * GS i j) ≤ rssp →
          lineSearch qf proj β Sprev GS (m + 1) step Scur rssp =
            lineSearch qf proj β Sprev GS m (step * β)
              (proj fun i j => Sprev i j - step * GS i j) rssp)) ∧
    (∀ (n' k' : ℕ) (CTXTX : Mat k' n' ℚ) (CTXTXC : Mat k' k' ℚ) (β : ℚ)
        (maxLS m : ℕ) (S GS : Mat k' n' ℚ) (step rssp : ℚ) (acc : Bool),
        gradStepsA CTXTX CTXTXC β maxLS (m + 1) S GS step rssp acc =
          gradStepsA CTXTX CTXTXC β maxLS m
            (lineSearch (quadA CTXTX CTXTXC) projA β S
              (fun i j => (CTXTXC * S - CTXTX) i j -
                ∑ i', (CTXTXC * S - CTXTX) i' j * S i' j) maxLS step S
              rssp).S
            (fun i j => (CTXTXC * S - CTXTX) i j -
              ∑ i', (CTXTXC * S - CTXTX) i' j * S i' j)
            (lineSearch (quadA CTXTX CTXTXC) projA β S
              (fun i j => (CTXTXC * S - CTXTX) i j -
                ∑ i', (CTXTXC * S - CTXTX) i' j * S i' j) maxLS step S
              rssp).step
            (lineSearch (quadA CTXTX CTXTXC) projA β S
              (fun i j => (CTXTXC * S - CTXTX) i j -
                ∑ i', (CTXTXC * S - CTXTX) i' j * S i' j) maxLS step S
              rssp).rssp
            (acc && (lineSearch (quadA CTXTX CTXTXC) projA β S
              (fun i j => (CTXTXC * S - CTXTX) i j -
                ∑ i', (CTXTXC * S - CTXTX) i' j * S i' j) maxLS step S
              rssp).acc)) ∧
    (∀ (n' k' f' : ℕ) (β : ℚ) (nI mL : ℕ) (s : PGDSt ℚ n' k' f'),
        (pgdOptimA β nI mL s).extra.stepB = s.extra.stepB ∧
        (pgdOptimB β nI mL s).extra.stepA = s.extra.stepA ∧
        (pgdOptimA β nI mL s).extra.stepA
          = (pgdOptimACore β nI mL s).step ∧
        (pgdOptimB β nI mL s).extra.stepB
          = (pgdOptimBCore β nI mL s).step) ∧
    (∀ (n' k' f' : ℕ) (β : ℚ) (nI mL maxIter : ℕ) (X : Mat n' f' ℚ)
        (indsA : Fin n' → Fin k') (indsB : Fin k' → Fin n') (tol : ℚ)
        (s : PGDSt ℚ n' k' f'),
        pgdFit β nI mL X indsA indsB maxIter tol s =
          engineFit (fun t => { t with A := onehotA indsA })
            (fun t => { t with B := onehotB indsB })
            (pgdOptimA β nI mL) (pgdOptimB β nI mL) X maxIter tol
            { s with extra := ⟨s.extra.stepA, s.extra.stepB, 0, 0,
                X * Xᵀ⟩ }) := by
  refine ⟨?_, ?_, ?_, ?_⟩
  · intro a b qf proj β Sprev GS m step Scur rssp
    exact ⟨lineSearch_succ_accept qf proj β Sprev GS m step Scur rssp,
      lineSearch_succ_reject qf proj β Sprev GS m step Scur rssp⟩
  · intro n' k' CTXTX CTXTXC β maxLS m S GS step rssp acc
    rw [gradStepsA]
  · intro n' k' f' β nI mL s
    exact ⟨rfl, rfl, rfl, rfl⟩
  · intro n' k' f' β nI mL maxIter X indsA indsB tol s
    rfl

/-- C6 witness: a concrete accepting trial (the first optimize-A line
search of the accepting two-sample run, whose quadratic form and gradient
are zero matrices) and a concrete rejecting trial (the optimize-B line
search of pgdRun1 run with step size two), with the stated equations
produced by the theorem. -/
theorem pgd_line_search_spec_witness :
    (quadA (0 : Mat 1 2 ℚ) (0 : Mat 1 1 ℚ)
        (projA fun i j => (fun _ _ => (1 : ℚ)) i j - 1 * (0 : Mat 1 2 ℚ) i j)
        ≤ 0 ∧
      lineSearch (quadA (0 : Mat 1 2 ℚ) (0 : Mat 1 1 ℚ)) projA (1 / 2)
          (fun _ _ => (1 : ℚ)) 0 (0 + 1) 1 (fun _ _ => (1 : ℚ)) 0 =
        ⟨projA fun i j => (fun _ _ => (1 : ℚ)) i j - 1 * (0 : Mat 1 2 ℚ) i j,
          1 / (1 / 2),
          quadA (0 : Mat 1 2 ℚ) (0 : Mat 1 1 ℚ)
            (projA fun i j => (fun _ _ => (1 : ℚ)) i j -
              1 * (0 : Mat 1 2 ℚ) i j), true⟩) ∧
    (¬ quadB ((X31 * X31ᵀ) * onesM) (X31 * X31ᵀ) threeM
        (projB fun i j => wSprev i j - 2 * X31 i j) ≤ 2 ∧
      lineSearch (quadB ((X31 * X31ᵀ) * onesM) (X31 * X31ᵀ) threeM) projB
          (1 / 2) wSprev X31 (0 + 1) 2 wSprev 2 =
        lineSearch (quadB ((X31 * X31ᵀ) * onesM) (X31 * X31ᵀ) threeM) projB
          (1 / 2) wSprev X31 0 (2 * (1 / 2))
          (projB fun i j => wSprev i j - 2 * X31 i j) 2) := by
  have hacc : quadA (0 : Mat 1 2 ℚ) (0 : Mat 1 1 ℚ)
      (projA fun i j => (fun _ _ => (1 : ℚ)) i j - 1 * (0 : Mat 1 2 ℚ) i j)
      ≤ 0 := by
    norm_num [quadA, projA, clampA, colNormalize, hadSum, theta,
      Matrix.mul_apply, Matrix.transpose_apply, Matrix.zero_apply,
      Fin.sum_univ_two, Fin.sum_univ_one, Fin.ext_iff]
  have hrej : ¬ quadB ((X31 * X31ᵀ) * onesM) (X31 * X31ᵀ) threeM
      (projB fun i j => wSprev i j - 2 * X31 i j) ≤ 2 := by
    norm_num [quadB, projB, clampB, colNormalize, hadSum, theta, wSprev,
      onesM, threeM, X31, Matrix.mul_apply, Matrix.transpose_apply,
      Fin.sum_univ_three, Fin.sum_univ_one, Fin.ext_iff]
  exact ⟨⟨hacc, (pgd_line_search_spec.1 1 2 (quadA 0 0) projA (1 / 2)
      (fun _ _ => 1) 0 0 1 (fun _ _ => 1) 0).1 hacc⟩,
    ⟨hrej, (pgd_line_search_spec.1 3 1
      (quadB ((X31 * X31ᵀ) * onesM) (X31 * X31ᵀ) threeM) projB (1 / 2)
      wSprev X31 0 2 wSprev 2).2 hrej⟩⟩

lemma lossFn_nonneg (X : Mat n f α) (s : AASt α n k f η) :
    0 ≤ lossFn X s :=
  Finset.sum_nonneg fun _ _ => Finset.sum_nonneg fun _ _ => sq_nonneg _

lemma getLastD_eq_getD (l : List α) (d : α) :
    l.getLastD d = l.getD (l.length - 1) d := by
  rw [List.getLastD_eq_getLast?, List.getLast?_eq_getElem?,
    List.getD_eq_getElem?_getD]

lemma getD_dropLast (l : List α) (i : ℕ) (h : i < l.length - 1) :
    l.dropLast.getD i 0 = l.getD i 0 := by
  rw [List.getD_eq_getElem?_getD, List.getD_eq_getElem?_getD,
    List.getElem?_dropLast, if_pos h]

lemma diffsGe_dropLast (tol : α) (l : List α) (h : diffsGe tol l) :
    diffsGe tol l.dropLast := by
  intro i hi
  rw [List.length_dropLast] at hi
  rw [getD_dropLast l i (by omega), getD_dropLast l (i + 1) (by omega)]
  exact h i (by omega)

lemma diffsGe_append (tol : α) (l : List α) (x : α) (h : diffsGe tol l)
    (hne : l ≠ []) (hx : tol ≤ |x - l.getLastD 0|) :
    diffsGe tol (l ++ [x]) := by
  intro i hi
  rw [List.length_append] at hi
  have hlen : 1 ≤ l.length := by
    cases l
    · exact absurd rfl hne
    · simp
  by_cases hc : i + 2 ≤ l.length
  · rw [List.getD_append l [x] 0 i (by omega),
      List.getD_append l [x] 0 (i + 1) (by omega)]
    exact h i hc
  · have hi1 : i + 1 = l.length := by simp at hi; omega
    rw [List.getD_append l [x] 0 i (by omega),
      List.getD_append_right l [x] 0 (i + 1) (by omega)]
    have hz : i + 1 - l.length = 0 := by omega
    rw [hz]
    have hi0 : i = l.length - 1 := by omega
    rw [hi0, ← getLastD_eq_getD]
    exact hx

lemma computeArchetypes_loss (X : Mat n f α) (t : AASt α n k f η) :
    (computeArchetypes X t).loss_ = t.loss_ := rfl

lemma fitLoop_loss_append (optA optB : AASt α n k f η → AASt α n k f η)
    (X : Mat n f α) (tol : α) (hA : ∀ t, (optA t).loss_ = t.loss_)
    (hB : ∀ t, (optB t).loss_ = t.loss_) : ∀ (m : ℕ) (s : AASt α n k f η),
    ∃ l2 : List α, (fitLoop optA optB X tol m s).loss_ = s.loss_ ++ l2 ∧
      l2.length ≤ m ∧ ∀ x ∈ l2, 0 ≤ x := by
  intro m
  induction m with
  | zero => intro s; exact ⟨[], by simp [fitLoop], by simp, by simp⟩
  | succ m ih =>
    intro s
    rw [fitLoop]
    have hfr : (computeArchetypes X (optB (optA s))).loss_ = s.loss_ := by
      rw [computeArchetypes_loss, hB, hA]
    by_cases hc : |lossFn X (computeArchetypes X (optB (optA s))) -
        (computeArchetypes X (optB (optA s))).loss_.getLastD 0| < tol
    · rw [if_pos hc]
      refine ⟨[lossFn X (computeArchetypes X (optB (optA s)))],
        by rw [hfr], by simp, ?_⟩
      intro x hx
      rw [List.mem_singleton] at hx
      rw [hx]
      exact lossFn_nonneg X _
    · rw [if_neg hc]
      obtain ⟨l2, h1, h2, h3⟩ := ih
        { computeArchetypes X (optB (optA s)) with
          loss_ := (computeArchetypes X (optB (optA s))).loss_ ++
            [lossFn X (computeArchetypes X (optB (optA s)))] }
      refine ⟨[lossFn X (computeArchetypes X (optB (optA s)))] ++ l2,
        ?_, ?_, ?_⟩
      · rw [h1]
        show (computeArchetypes X (optB (optA s))).loss_ ++ _ ++ l2 = _
        rw [hfr, List.append_assoc]
      · simp only [List.length_append, List.length_singleton]
        omega
      · intro x hx
        rcases List.mem_append.mp hx with h | h
        · rw [List.mem_singleton] at h
          rw [h]
          exact lossFn_nonneg X _
        · exact h3 x h

lemma fitLoop_stop (optA optB : AASt α n k f η → AASt α n k f η)
    (X : Mat n f α) (tol : α) (hA : ∀ t, (optA t).loss_ = t.loss_)
    (hB : ∀ t, (optB t).loss_ = t.loss_) : ∀ (m : ℕ) (s : AASt α n k f η),
    s.loss_ ≠ [] →
    (fitLoop optA optB X tol m s).loss_.length = s.loss_.length + m ∨
      (2 ≤ (fitLoop optA optB X tol m s).loss_.length ∧
        |(fitLoop optA optB X tol m s).loss_.getD
            ((fitLoop optA optB X tol m s).loss_.length - 1) 0 -
          (fitLoop optA optB X tol m s).loss_.getD
            ((fitLoop optA optB X tol m s).loss_.length - 2) 0| < tol) := by
  intro m
  induction m with
  | zero => intro s _; left; rfl
  | succ m ih =>
    intro s hne
    rw [fitLoop]
    have hfr : (computeArchetypes X (optB (optA s))).loss_ = s.loss_ := by
      rw [computeArchetypes_loss, hB, hA]
    have hlen : 1 ≤ s.loss_.length := by
      cases hs : s.loss_
      · exact absurd hs hne
      · simp
    by_cases hc : |lossFn X (computeArchetypes X (optB (optA s))) -
        (computeArchetypes X (optB (optA s))).loss_.getLastD 0| < tol
    · rw [if_pos hc]
      right
      have hL : ((computeArchetypes X (optB (optA s))).loss_ ++
          [lossFn X (computeArchetypes X (optB (optA s)))]).length
          = s.loss_.length + 1 := by
        rw [List.length_append, hfr]
        rfl
      constructor
      · show 2 ≤ ((computeArchetypes X (optB (optA s))).loss_ ++ _).length
        rw [hL]
        omega
      · dsimp only
        rw [hL]
        have e1 : s.loss_.length + 1 - 1 = s.loss_.length := by omega
        have e2 : s.loss_.length + 1 - 2 = s.loss_.length - 1 := by omega
        rw [e1, e2, hfr,
          List.getD_append_right s.loss_ _ 0 s.loss_.length (le_refl _),
          Nat.sub_self,
          List.getD_append s.loss_ _ 0 (s.loss_.length - 1) (by omega),
          ← getLastD_eq_getD]
        rw [hfr] at hc
        exact hc
    · rw [if_neg hc]
      have hrec := ih { computeArchetypes X (optB (optA s)) with
          loss_ := (computeArchetypes X (optB (optA s))).loss_ ++
            [lossFn X (computeArchetypes X (optB (optA s)))] }
        (by show (computeArchetypes X (optB (optA s))).loss_ ++ _ ≠ []
            rw [hfr]; simp)
      rcases hrec with h | h
      · left
        rw [h]
        show ((computeArchetypes X (optB (optA s))).loss_ ++ _).length + m
          = s.loss_.length + (m + 1)
        rw [List.length_append, hfr]
        simp
        omega
      · right
        exact h

lemma fitLoop_min_diffs (optA optB : AASt α n k f η → AASt α n k f η)
    (X : Mat n f α) (tol : α) (hA : ∀ t, (optA t).loss_ = t.loss_)
    (hB : ∀ t, (optB t).loss_ = t.loss_) : ∀ (m : ℕ) (s : AASt α n k f η),
    s.loss_ ≠ [] → diffsGe tol s.loss_ →
    diffsGe tol (fitLoop optA optB X tol m s).loss_.dropLast := by
  intro m
  induction m with
  | zero => intro s _ h; exact diffsGe_dropLast tol _ h
  | succ m ih =>
    intro s hne hd
    rw [fitLoop]
    have hfr : (computeArchetypes X (optB (optA s))).loss_ = s.loss_ := by
      rw [computeArchetypes_loss, hB, hA]
    by_cases hc : |lossFn X (computeArchetypes X (optB (optA s))) -
        (computeArchetypes X (optB (optA s))).loss_.getLastD 0| < tol
    · rw [if_pos hc]
      show diffsGe tol ((computeArchetypes X (optB (optA s))).loss_ ++
        _).dropLast
      rw [hfr, List.dropLast_concat]
      exact hd
    · rw [if_neg hc]
      apply ih
      · show (computeArchetypes X (optB (optA s))).loss_ ++ _ ≠ []
        rw [hfr]
        simp
      · show diffsGe tol ((computeArchetypes X (optB (optA s))).loss_ ++ _)
        rw [hfr]
        refine diffsGe_append tol s.loss_ _ hd hne ?_
        rw [hfr] at hc
        exact not_lt.mp hc

lemma fitLoop_head (optA optB : AASt α n k f η → AASt α n k f η)
    (X : Mat n f α) (tol : α) (hA : ∀ t, (optA t).loss_ = t.loss_)
    (hB : ∀ t, (optB t).loss_ = t.loss_) (m : ℕ) (s : AASt α n k f η)
    (hne : s.loss_ ≠ []) :
    (fitLoop optA optB X tol m s).loss_.head? = s.loss_.head? := by
  obtain ⟨l2, h1, _, _⟩ := fitLoop_loss_append optA optB X tol hA hB m s
  rw [h1, List.head?_append]
  cases hs : s.loss_
  · exact absurd hs hne
  · simp

lemma fitLoop_consistent (optA optB : AASt α n k f η → AASt α n k f η)
    (X : Mat n f α) (tol : α) : ∀ (m : ℕ) (s : AASt α n k f η),
    s.archetypes = s.B * X →
    (fitLoop optA optB X tol m s).archetypes =
      (fitLoop optA optB X tol m s).B * X := by
  intro m
  induction m with
  | zero => intro s h; exact h
  | succ m ih =>
    intro s _
    rw [fitLoop]
    by_cases hc : |lossFn X (computeArchetypes X (optB (optA s))) -
        (computeArchetypes X (optB (optA s))).loss_.getLastD 0| < tol
    · rw [if_pos hc]; rfl
    · rw [if_neg hc]; exact ih _ rfl

lemma fitLoop_loss_entries (optA optB : AASt α n k f η → AASt α n k f η)
    (X : Mat n f α) (tol : α) (hA : ∀ t, (optA t).loss_ = t.loss_)
    (hB : ∀ t, (optB t).loss_ = t.loss_) : ∀ (m : ℕ) (s : AASt α n k f η),
    (∀ x ∈ s.loss_, ∃ (A' : Mat n k α) (B' : Mat k n α),
      x = lossABX X A' B') →
    ∀ x ∈ (fitLoop optA optB X tol m s).loss_,
      ∃ (A' : Mat n k α) (B' : Mat k n α), x = lossABX X A' B' := by
  intro m
  induction m with
  | zero => intro s h; exact h
  | succ m ih =>
    intro s hin
    rw [fitLoop]
    have hfr : (computeArchetypes X (optB (optA s))).loss_ = s.loss_ := by
      rw [computeArchetypes_loss, hB, hA]
    have hnew : ∀ x ∈ (computeArchetypes X (optB (optA s))).loss_ ++
        [lossFn X (computeArchetypes X (optB (optA s)))],
        ∃ (A' : Mat n k α) (B' : Mat k n α), x = lossABX X A' B' := by
      intro x hx
      rcases List.mem_append.mp hx with h | h
      · rw [hfr] at h
        exact hin x h
      · rw [List.mem_singleton] at h
        refine ⟨(computeArchetypes X (optB (optA s))).A,
          (computeArchetypes X (optB (optA s))).B, ?_⟩
        rw [h]
        exact lossFn_eq_lossABX X _ rfl
    by_cases hc : |lossFn X (computeArchetypes X (optB (optA s))) -
        (computeArchetypes X (optB (optA s))).loss_.getLastD 0| < tol
    · rw [if_pos hc]
      exact hnew
    · rw [if_neg hc]
      exact ih _ hnew


/-- C4 (confirmed): for every fit of the engine, with any strategy whose
optimize operations leave the loss history alone (as all three concrete
strategies do): the history starts with the loss of the freshly
initialized state, gains one entry per completed iteration (its length is
t + 1 for some t at most max_iter), every entry is nonnegative, the loop
stops either by exhausting max_iter or with the last recorded difference
below tol, every earlier consecutive difference is at least tol (the loop
stops at the first admissible iteration), and with max_iter = 0 the
freshly initialized state is returned unchanged with a history of
length one. -/
theorem engine_fit_loss_history_spec
    (initA initB optA optB : AASt α n k f η → AASt α n k f η)
    (X : Mat n f α) (maxIter : ℕ) (tol : α) (s : AASt α n k f η)
    (hA : ∀ t, (optA t).loss_ = t.loss_)
    (hB : ∀ t, (optB t).loss_ = t.loss_) :
    (∃ t ≤ maxIter,
      (engineFit initA initB optA optB X maxIter tol s).loss_.length
        = t + 1) ∧
    (engineFit initA initB optA optB X maxIter tol s).loss_.head?
      = some (lossFn X (computeArchetypes X (initB (initA s)))) ∧
    (∀ x ∈ (engineFit initA initB optA optB X maxIter tol s).loss_,
      0 ≤ x) ∧
    ((engineFit initA initB optA optB X maxIter tol s).loss_.length
        = maxIter + 1 ∨
      (2 ≤ (engineFit initA initB optA optB X maxIter tol
          s).loss_.length ∧
        |(engineFit initA initB optA optB X maxIter tol s).loss_.getD
            ((engineFit initA initB optA optB X maxIter tol
              s).loss_.length - 1) 0 -
          (engineFit initA initB optA optB X maxIter tol s).loss_.getD
            ((engineFit initA initB optA optB X maxIter tol
              s).loss_.length - 2) 0| < tol)) ∧
    diffsGe tol
      (engineFit initA initB optA optB X maxIter tol s).loss_.dropLast ∧
    (maxIter = 0 →
      engineFit initA initB optA optB X maxIter tol s =
        { computeArchetypes X (initB (initA s)) with
            loss_ :=
              [lossFn X (computeArchetypes X (initB (initA s)))] }) := by
  have heq : engineFit initA initB optA optB X maxIter tol s
      = fitLoop optA optB X tol maxIter
        { computeArchetypes X (initB (initA s)) with
          loss_ := [lossFn X (computeArchetypes X (initB (initA s)))] } :=
    rfl
  have hne : ({ computeArchetypes X (initB (initA s)) with
      loss_ := [lossFn X (computeArchetypes X (initB (initA s)))] } :
      AASt α n k f η).loss_ ≠ [] := by
    show [lossFn X (computeArchetypes X (initB (initA s)))] ≠ []
    simp
  refine ⟨?_, ?_, ?_, ?_, ?_, ?_⟩
  · obtain ⟨l2, h1, h2, _⟩ :=
      fitLoop_loss_append optA optB X tol hA hB maxIter
        { computeArchetypes X (initB (initA s)) with
          loss_ := [lossFn X (computeArchetypes X (initB (initA s)))] }
    refine ⟨l2.length, h2, ?_⟩
    rw [heq, h1]
    show ([lossFn X (computeArchetypes X (initB (initA s)))] ++ l2).length
      = l2.length + 1
    rw [List.length_append]
    simp
    omega
  · rw [heq, fitLoop_head optA optB X tol hA hB maxIter _ hne]
    rfl
  · intro x hx
    rw [heq] at hx
    obtain ⟨l2, h1, _, h3⟩ :=
      fitLoop_loss_append optA optB X tol hA hB maxIter
        { computeArchetypes X (initB (initA s)) with
          loss_ := [lossFn X (computeArchetypes X (initB (initA s)))] }
    rw [h1] at hx
    rcases List.mem_append.mp hx with h | h
    · have hx1 : x = lossFn X (computeArchetypes X (initB (initA s))) := by
        rw [List.mem_singleton] at h
        exact h
      rw [hx1]
      exact lossFn_nonneg X _
    · exact h3 x h
  · have hstop := fitLoop_stop optA optB X tol hA hB maxIter
      { computeArchetypes X (initB (initA s)) with
        loss_ := [lossFn X (computeArchetypes X (initB (initA s)))] } hne
    rw [heq]
    rcases hstop with h | h
    · left
      rw [h]
      show ([lossFn X (computeArchetypes X (initB (initA s)))]).length
        + maxIter = maxIter + 1
      simp
      omega
    · right
      exact h
  · rw [heq]
    apply fitLoop_min_diffs optA optB X tol hA hB maxIter _ hne
    intro i hi
    have hi2 : i + 2 ≤ 1 := hi
    exact absurd hi2 (by omega)
  · intro h0
    rw [heq, h0]
    rfl

/-- C4 witness: the specification instantiated at the concrete pgd fit of
pgdRun1 (whose optimize operations leave the loss history alone by
construction), its hypotheses discharged definitionally. -/
theorem engine_fit_loss_history_spec_witness :
    (∃ t ≤ 1, (engineFit
        (fun t => { t with A := onehotA (fun _ => (0 : Fin 1)) })
        (fun t => { t with B := onehotB (fun _ => (0 : Fin 3)) })
        (pgdOptimA (1 / 2) 1 1) (pgdOptimB (1 / 2) 1 1) X31 1 (1 / 10000)
        (pgdFresh 1 : PGDSt ℚ 3 1 1)).loss_.length = t + 1) ∧
    (∀ x ∈ (engineFit
        (fun t => { t with A := onehotA (fun _ => (0 : Fin 1)) })
        (fun t => { t with B := onehotB (fun _ => (0 : Fin 3)) })
        (pgdOptimA (1 / 2) 1 1) (pgdOptimB (1 / 2) 1 1) X31 1 (1 / 10000)
        (pgdFresh 1 : PGDSt ℚ 3 1 1)).loss_, 0 ≤ x) := by
  have h := engine_fit_loss_history_spec
    (fun t => { t with A := onehotA (fun _ => (0 : Fin 1)) })
    (fun t => { t with B := onehotB (fun _ => (0 : Fin 3)) })
    (pgdOptimA (1 / 2) 1 1) (pgdOptimB (1 / 2) 1 1) X31 1 (1 / 10000)
    (pgdFresh 1 : PGDSt ℚ 3 1 1) (fun _ => rfl) (fun _ => rfl)
  exact ⟨h.1, h.2.2.1⟩

/-- C8 (corrected, amended form): the archetypes matrix is consistent with
B at every point where the engine records a loss and when fit returns: the
returned state satisfies archetypes = B times X, and every recorded loss
value is the reconstruction loss of X from some A and B (the loss is
evaluated right after archetypes is recomputed from the current B).  The
original claim that no strategy operation ever assigns the archetypes
otherwise is false: _nnls_optim_B assigns archetypes := pinv(A) times X,
which generally differs from B times X (see the counterexample). -/
theorem archetypes_consistent_at_records
    (initA initB optA optB : AASt α n k f η → AASt α n k f η)
    (X : Mat n f α) (maxIter : ℕ) (tol : α) (s : AASt α n k f η)
    (hA : ∀ t, (optA t).loss_ = t.loss_)
    (hB : ∀ t, (optB t).loss_ = t.loss_) :
    (engineFit initA initB optA optB X maxIter tol s).archetypes =
      (engineFit initA initB optA optB X maxIter tol s).B * X ∧
    ∀ x ∈ (engineFit initA initB optA optB X maxIter tol s).loss_,
      ∃ (A' : Mat n k α) (B' : Mat k n α), x = lossABX X A' B' := by
  constructor
  · exact fitLoop_consistent optA optB X tol maxIter _ rfl
  · apply fitLoop_loss_entries optA optB X tol hA hB maxIter
    intro x hx
    have hx1 : x = lossFn X (computeArchetypes X (initB (initA s))) := by
      rw [List.mem_singleton] at hx
      exact hx
    exact ⟨(computeArchetypes X (initB (initA s))).A,
      (computeArchetypes X (initB (initA s))).B,
      by rw [hx1]; exact lossFn_eq_lossABX X _ rfl⟩

/-- C8 witness: the consistency statement instantiated at a concrete nnls
fit (whose optimize operations leave the loss history alone). -/
theorem archetypes_consistent_at_records_witness :
    (engineFit (fun t => { t with A := onehotA (fun _ => (0 : Fin 1)) })
        (fun t => { t with B := onehotB (fun _ => (0 : Fin 2)) })
        (nnlsOptimA nnlsCx none Xcx) (nnlsOptimB pinvCx nnlsCx none Xcx)
        Xcx 1 (1 / 100) (cxSt : AASt ℚ 2 1 1 Unit)).archetypes =
      (engineFit (fun t => { t with A := onehotA (fun _ => (0 : Fin 1)) })
        (fun t => { t with B := onehotB (fun _ => (0 : Fin 2)) })
        (nnlsOptimA nnlsCx none Xcx) (nnlsOptimB pinvCx nnlsCx none Xcx)
        Xcx 1 (1 / 100) (cxSt : AASt ℚ 2 1 1 Unit)).B * Xcx :=
  (archetypes_consistent_at_records
    (fun t => { t with A := onehotA (fun _ => (0 : Fin 1)) })
    (fun t => { t with B := onehotB (fun _ => (0 : Fin 2)) })
    (nnlsOptimA nnlsCx none Xcx) (nnlsOptimB pinvCx nnlsCx none Xcx)
    Xcx 1 (1 / 100) cxSt (fun _ => rfl) (fun _ => rfl)).1

/-- C8 counterexample: _nnls_optim_B independently mutates the archetypes:
at a reachable state (one-hot A and B, data samples 0 and 4, pinv
instantiated with the true Moore-Penrose pseudo-inverse of the all-ones
column, namely the half-half row, and the solver returning a valid simplex
point), the operation assigns archetypes := pinv(A) times X with entry 2,
while B times X after the solver call has entry 0: the mid-iteration state
violates archetypes = B times X, refuting the claim that no strategy
operation ever mutates the archetypes by any assignment other than the
engine recomputation. -/
theorem nnls_optimB_mutates_archetypes_cx :
    (nnlsOptimB pinvCx nnlsCx none Xcx cxSt).archetypes ≠
      (nnlsOptimB pinvCx nnlsCx none Xcx cxSt).B * Xcx := by
  intro h
  have h00 := congrFun (congrFun h 0) 0
  norm_num [nnlsOptimB, nnlsCx, pinvCx, Xcx, cxSt, computeArchetypes,
    onehotA, onehotB, Matrix.mul_apply, Fin.sum_univ_two, Fin.sum_univ_one,
    Fin.ext_iff] at h00


lemma nnlsFit_state_independent (pinv : Mat n k α → Mat k n α)
    (nnls : NNLSSolver α) (mi : Option ℕ) (X : Mat n f α)
    (indsA : Fin n → Fin k) (indsB : Fin k → Fin n) (maxIter : ℕ)
    (tol : α) (s t : AASt α n k f Unit) :
    nnlsFit pinv nnls mi X indsA indsB maxIter tol s =
      nnlsFit pinv nnls mi X indsA indsB maxIter tol t := rfl

lemma pgdFit_state_independent (β : α) (nI mL : ℕ) (X : Mat n f α)
    (indsA : Fin n → Fin k) (indsB : Fin k → Fin n) (maxIter : ℕ)
    (tol : α) (s t : PGDSt α n k f)
    (h1 : s.extra.stepA = t.extra.stepA)
    (h2 : s.extra.stepB = t.extra.stepB) :
    pgdFit β nI mL X indsA indsB maxIter tol s =
      pgdFit β nI mL X indsA indsB maxIter tol t := by
  obtain ⟨sA, sB, sZ, sL, sa1, sa2, sGA, sGB, sG⟩ := s
  obtain ⟨tA, tB, tZ, tL, ta1, ta2, tGA, tGB, tG⟩ := t
  simp only at h1 h2
  rw [h1, h2]
  exact rfl

lemma jaxFit_state_independent {τA τB : Type} (stA0 : Mat n k ℝ → τA)
    (stB0 : Mat k n ℝ → τB) (updA : Mat n k ℝ → τA → Mat n k ℝ × τA)
    (updB : Mat k n ℝ → τB → Mat k n ℝ × τB) (X : Mat n f ℝ)
    (indsA : Fin n → Fin k) (indsB : Fin k → Fin n) (maxIter : ℕ)
    (tol : ℝ) (s t : JaxSt n k f τA τB) :
    jaxFit stA0 stB0 updA updB X indsA indsB maxIter tol s =
      jaxFit stA0 stB0 updA updB X indsA indsB maxIter tol t := rfl

/-- C9 (corrected, amended form): fit depends on nothing the estimator
carried before the call, with one exception.  For the nnls and jax
strategies, two fits with the same data, the same index draws and the same
external collaborators produce fully identical results whatever states
they start from (so a second sequential call reproduces the history
bit for bit, and a fourth conjunct records this directly).  For the pgd
strategy the same holds provided the two starting states agree on the two
step-size attributes; those are set at construction time, mutated by fit
and not reset by _pgd_fit, so without that proviso two sequential pgd fit
calls can differ (see the counterexample). -/
theorem fit_determinism_spec :
    (∀ (n' k' f' : ℕ) (pinv : Mat n' k' ℚ → Mat k' n' ℚ)
        (nnls : NNLSSolver ℚ) (mi : Option ℕ) (X : Mat n' f' ℚ)
        (indsA : Fin n' → Fin k') (indsB : Fin k' → Fin n')
        (maxIter : ℕ) (tol : ℚ) (s t : AASt ℚ n' k' f' Unit),
      nnlsFit pinv nnls mi X indsA indsB maxIter tol s =
        nnlsFit pinv nnls mi X indsA indsB maxIter tol t) ∧
    (∀ (n' k' f' : ℕ) (β : ℚ) (nI mL : ℕ) (X : Mat n' f' ℚ)
        (indsA : Fin n' → Fin k') (indsB : Fin k' → Fin n')
        (maxIter : ℕ) (tol : ℚ) (s t : PGDSt ℚ n' k' f'),
      s.extra.stepA = t.extra.stepA → s.extra.stepB = t.extra.stepB →
      pgdFit β nI mL X indsA indsB maxIter tol s =
        pgdFit β nI mL X indsA indsB maxIter tol t) ∧
    (∀ (n' k' f' : ℕ) (τA τB : Type) (stA0 : Mat n' k' ℝ → τA)
        (stB0 : Mat k' n' ℝ → τB)
        (updA : Mat n' k' ℝ → τA → Mat n' k' ℝ × τA)
        (updB : Mat k' n' ℝ → τB → Mat k' n' ℝ × τB) (X : Mat n' f' ℝ)
        (indsA : Fin n' → Fin k') (indsB : Fin k' → Fin n')
        (maxIter : ℕ) (tol : ℝ) (s t : JaxSt n' k' f' τA τB),
      jaxFit stA0 stB0 updA updB X indsA indsB maxIter tol s =
        jaxFit stA0 stB0 updA updB X indsA indsB maxIter tol t) ∧
    (∀ (n' k' f' : ℕ) (pinv : Mat n' k' ℚ → Mat k' n' ℚ)
        (nnls : NNLSSolver ℚ) (mi : Option ℕ) (X : Mat n' f' ℚ)
        (indsA : Fin n' → Fin k') (indsB : Fin k' → Fin n')
        (maxIter : ℕ) (tol : ℚ) (s : AASt ℚ n' k' f' Unit),
      nnlsFit pinv nnls mi X indsA indsB maxIter tol
          (nnlsFit pinv nnls mi X indsA indsB maxIter tol s) =
        nnlsFit pinv nnls mi X indsA indsB maxIter tol s) := by
  refine ⟨?_, ?_, ?_, ?_⟩
  · intro n' k' f' pinv nnls mi X indsA indsB maxIter tol s t
    exact nnlsFit_state_independent pinv nnls mi X indsA indsB maxIter
      tol s t
  · intro n' k' f' β nI mL X indsA indsB maxIter tol s t h1 h2
    exact pgdFit_state_independent β nI mL X indsA indsB maxIter tol s t
      h1 h2
  · intro n' k' f' τA τB stA0 stB0 updA updB X indsA indsB maxIter tol s t
    exact jaxFit_state_independent stA0 stB0 updA updB X indsA indsB
      maxIter tol s t
  · intro n' k' f' pinv nnls mi X indsA indsB maxIter tol s
    exact nnlsFit_state_independent pinv nnls mi X indsA indsB maxIter
      tol _ s

/-- C9 witness: the pgd conjunct applied to two concrete states that
agree on the step sizes but on nothing else (a fresh estimator and the
state entering the iteration of pgdRun1). -/
theorem fit_determinism_spec_witness :
    pgdFit (1 / 2) 1 1 X31 (fun _ => 0) (fun _ => 0) 1 (1 / 10000)
        (pgdFresh 1) =
      pgdFit (1 / 2) 1 1 X31 (fun _ => 0) (fun _ => 0) 1 (1 / 10000)
        init31 :=
  fit_determinism_spec.2.1 3 1 1 (1 / 2) 1 1 X31 (fun _ => 0)
    (fun _ => 0) 1 (1 / 10000) (pgdFresh 1) init31 rfl rfl

set_option maxHeartbeats 8000000 in
/-- C9 counterexample: two sequential pgd fit calls on the same estimator,
with identical data and identical index draws, produce different loss
histories: the first ends with step sizes 2 and one half rather than the
construction value 1, and the second records 6 where the first recorded
23 thirds.  Bit-for-bit reproducibility therefore fails for the pgd
strategy. -/
theorem pgd_sequential_fits_differ_cx :
    pgdRun1.loss_ = [5, 23 / 3] ∧ pgdRun2.loss_ = [5, 6] ∧
    pgdRun2.loss_ ≠ pgdRun1.loss_ := by
  have h1 : pgdRun1.loss_ = [5, 23 / 3] := by
    norm_num [pgdRun1, pgdFit, engineFit, fitLoop, ite_self,
      computeArchetypes, lossFn, onehotA, onehotB, pgdOptimA, pgdOptimB,
      pgdOptimACore, pgdOptimBCore, gradStepsA, gradStepsB, lineSearch,
      projA, projB, clampA, clampB, colNormalize, quadA, quadB, hadSum,
      theta, X31, pgdFresh, Matrix.mul_apply, Matrix.transpose_apply,
      Matrix.sub_apply, Fin.sum_univ_three, Fin.sum_univ_one, Fin.ext_iff]
  have h2 : pgdRun2.loss_ = [5, 6] := by
    norm_num [pgdRun2, pgdRun1, pgdFit, engineFit, fitLoop, ite_self,
      computeArchetypes, lossFn, onehotA, onehotB, pgdOptimA, pgdOptimB,
      pgdOptimACore, pgdOptimBCore, gradStepsA, gradStepsB, lineSearch,
      projA, projB, clampA, clampB, colNormalize, quadA, quadB, hadSum,
      theta, X31, pgdFresh, Matrix.mul_apply, Matrix.transpose_apply,
      Matrix.sub_apply, Fin.sum_univ_three, Fin.sum_univ_one, Fin.ext_iff]
  refine ⟨h1, h2, ?_⟩
  rw [h1, h2]
  intro h
  norm_num at h

/-- C7 (confirmed): the nnls strategy operations are exactly two solver
calls per outer iteration and nothing else.  optimize-B first sets the
archetypes estimate to pinv(A) applied to X and then sets B to the simplex
solver result with design equal to that estimate and target X; optimize-A
sets A to the solver result with design X and target the current
archetypes; in both cases every other state field is unchanged, so the
strategy performs no inner iteration of its own beyond the two solver
calls (the solver iteration bound is merely passed through). -/
theorem nnls_strategy_structure (pinv : Mat n k ℚ → Mat k n ℚ)
    (nnls : NNLSSolver ℚ) (mi : Option ℕ) (X : Mat n f ℚ)
    (s : AASt ℚ n k f Unit) :
    nnlsOptimB pinv nnls mi X s =
      { s with archetypes := pinv s.A * X,
               B := nnls k n f (pinv s.A * X) X mi } ∧
    nnlsOptimA nnls mi X s =
      { s with A := nnls n k f X s.archetypes mi } :=
  ⟨rfl, rfl⟩


lemma theta_pos : (0 : α) < theta α := by
  unfold theta
  norm_num

lemma colNormalize_colSimplex (M : Mat a b α) (hpos : ∀ i j, 0 ≤ M i j)
    (hcol : ∀ j, 0 < ∑ i, M i j) : ColSimplex (colNormalize M) := by
  constructor
  · intro i j
    exact div_nonneg (hpos i j) (hcol j).le
  · intro j
    unfold colNormalize
    rw [← Finset.sum_div, div_self (hcol j).ne']

lemma colSum_trial_eq_sq (Sprev GS : Mat a b α) (step : α) (j : Fin b)
    (horth : ∑ i, GS i j * Sprev i j = 0) :
    ∑ i, Sprev i j * (Sprev i j - step * GS i j)
      = ∑ i, Sprev i j ^ 2 := by
  have h1 : ∀ i, Sprev i j * (Sprev i j - step * GS i j)
      = Sprev i j ^ 2 - step * (GS i j * Sprev i j) := by
    intro i
    ring
  simp_rw [h1]
  rw [Finset.sum_sub_distrib, ← Finset.mul_sum, horth, mul_zero, sub_zero]

lemma sum_sq_pos_of_colSimplex (Sprev : Mat a b α) (j : Fin b)
    (hpos : ∀ i j, 0 ≤ Sprev i j) (hsum : ∑ i, Sprev i j = 1) :
    0 < ∑ i, Sprev i j ^ 2 := by
  rcases lt_or_eq_of_le (Finset.sum_nonneg fun i _ =>
    sq_nonneg (Sprev i j)) with h | h
  · exact h
  · exfalso
    have hall := (Finset.sum_eq_zero_iff_of_nonneg fun i _ =>
      sq_nonneg (Sprev i j)).mp h.symm
    have hz : ∑ i, Sprev i j = 0 := Finset.sum_eq_zero fun i _ =>
      pow_eq_zero_iff (two_ne_zero) |>.mp (hall i (Finset.mem_univ i))
    rw [hsum] at hz
    exact one_ne_zero hz

lemma projA_colSimplex (Sprev GS : Mat k n α) (step : α)
    (hpos : ∀ i j, 0 ≤ Sprev i j) (hsum : ∀ j, ∑ i, Sprev i j = 1)
    (horth : ∀ j, ∑ i, GS i j * Sprev i j = 0) :
    ColSimplex (projA fun i j => Sprev i j - step * GS i j) := by
  have hclamp_nonneg : ∀ i j,
      0 ≤ clampA (fun i j => Sprev i j - step * GS i j) i j := by
    intro i j
    unfold clampA
    split
    · exact theta_pos.le
    · exact not_lt.mp (by assumption)
  apply colNormalize_colSimplex _ hclamp_nonneg
  intro j
  obtain ⟨i1, hi1⟩ : ∃ i1, 0 < Sprev i1 j * (Sprev i1 j - step * GS i1 j) := by
    by_contra hnone
    push_neg at hnone
    have hle : ∑ i, Sprev i j * (Sprev i j - step * GS i j) ≤ 0 :=
      Finset.sum_nonpos fun i _ => hnone i
    rw [colSum_trial_eq_sq Sprev GS step j (horth j)] at hle
    exact absurd hle
      (not_le.mpr (sum_sq_pos_of_colSimplex Sprev j hpos (hsum j)))
  have hT1 : 0 < Sprev i1 j - step * GS i1 j := by
    rcases mul_pos_iff.mp hi1 with ⟨_, h2⟩ | ⟨h1, _⟩
    · exact h2
    · exact absurd h1 (not_lt.mpr (hpos i1 j))
  have hclamp1 : clampA (fun i j => Sprev i j - step * GS i j) i1 j
      = Sprev i1 j - step * GS i1 j := by
    unfold clampA
    rw [if_neg (not_lt.mpr hT1.le)]
  calc (0 : α) < Sprev i1 j - step * GS i1 j := hT1
  _ = clampA (fun i j => Sprev i j - step * GS i j) i1 j := hclamp1.symm
  _ ≤ ∑ i, clampA (fun i j => Sprev i j - step * GS i j) i j :=
    Finset.single_le_sum (fun i _ => hclamp_nonneg i j)
      (Finset.mem_univ i1)

lemma projB_colSimplex (Cprev GS : Mat n k α) (step : α)
    (hpos : ∀ i j, 0 ≤ Cprev i j) (hsum : ∀ j, ∑ i, Cprev i j = 1)
    (horth : ∀ j, ∑ i, GS i j * Cprev i j = 0)
    (hn : (n : α) * theta α < 1) :
    ColSimplex (projB fun i j => Cprev i j - step * GS i j) := by
  have hclamp_nonneg : ∀ i j,
      0 ≤ clampB (fun i j => Cprev i j - step * GS i j) i j := by
    intro i j
    unfold clampB
    split
    · exact le_refl 0
    · exact (theta_pos.le).trans (not_lt.mp (by assumption))
  apply colNormalize_colSimplex _ hclamp_nonneg
  intro j
  obtain ⟨i1, hi1⟩ : ∃ i1, theta α ≤ Cprev i1 j - step * GS i1 j := by
    by_contra hnone
    push_neg at hnone
    have hle : ∑ i, Cprev i j * (Cprev i j - step * GS i j)
        ≤ ∑ i, Cprev i j * theta α :=
      Finset.sum_le_sum fun i _ =>
        mul_le_mul_of_nonneg_left (hnone i).le (hpos i j)
    rw [colSum_trial_eq_sq Cprev GS step j (horth j)] at hle
    have h2 : ∑ i, Cprev i j * theta α = theta α := by
      rw [← Finset.sum_mul, hsum j, one_mul]
    rw [h2] at hle
    have hcs : (1 : α) ≤ (n : α) * ∑ i, Cprev i j ^ 2 := by
      have hc := sq_sum_le_card_mul_sum_sq (s := Finset.univ)
        (f := fun i => Cprev i j)
      rw [hsum j, one_pow, Finset.card_univ, Fintype.card_fin] at hc
      exact hc
    have hfin : (1 : α) ≤ (n : α) * theta α :=
      hcs.trans (mul_le_mul_of_nonneg_left hle (Nat.cast_nonneg n))
    exact absurd hfin (not_le.mpr hn)
  have hT1 : 0 < Cprev i1 j - step * GS i1 j := lt_of_lt_of_le theta_pos hi1
  have hclamp1 : clampB (fun i j => Cprev i j - step * GS i j) i1 j
      = Cprev i1 j - step * GS i1 j := by
    unfold clampB
    rw [if_neg (not_lt.mpr hi1)]
  calc (0 : α) < Cprev i1 j - step * GS i1 j := hT1
  _ = clampB (fun i j => Cprev i j - step * GS i j) i1 j := hclamp1.symm
  _ ≤ ∑ i, clampB (fun i j => Cprev i j - step * GS i j) i j :=
    Finset.single_le_sum (fun i _ => hclamp_nonneg i j)
      (Finset.mem_univ i1)

lemma recentered_orth (G S : Mat a b α) (hcol : ∀ j, ∑ i, S i j = 1) :
    ∀ j, ∑ i,
      (fun i j => G i j - ∑ i', G i' j * S i' j) i j * S i j = 0 := by
  intro j
  have h1 : ∀ i, (G i j - ∑ i', G i' j * S i' j) * S i j
      = G i j * S i j - (∑ i', G i' j * S i' j) * S i j := by
    intro i
    ring
  simp_rw [h1]
  rw [Finset.sum_sub_distrib, ← Finset.mul_sum, hcol j, mul_one, sub_self]

lemma lineSearch_colSimplex (qf : Mat a b α → α)
    (proj : Mat a b α → Mat a b α) (β : α) (Sprev GS : Mat a b α)
    (hproj : ∀ step : α,
      ColSimplex (proj fun i j => Sprev i j - step * GS i j)) :
    ∀ (m : ℕ) (step : α) (Scur : Mat a b α) (rssp : α),
    ColSimplex Scur →
    ColSimplex (lineSearch qf proj β Sprev GS m step Scur rssp).S := by
  intro m
  induction m with
  | zero => intro step Scur rssp h; exact h
  | succ m ih =>
    intro step Scur rssp h
    by_cases hc : qf (proj fun i j => Sprev i j - step * GS i j) ≤ rssp
    · rw [lineSearch_succ_accept qf proj β Sprev GS m step Scur rssp hc]
      exact hproj step
    · rw [lineSearch_succ_reject qf proj β Sprev GS m step Scur rssp hc]
      exact ih (step * β) _ rssp (hproj step)

lemma gradStepsA_colSimplex (CTXTX : Mat k n α) (CTXTXC : Mat k k α)
    (β : α) (maxLS : ℕ) : ∀ (m : ℕ) (S GS : Mat k n α) (step rssp : α)
    (acc : Bool), ColSimplex S →
    ColSimplex (gradStepsA CTXTX CTXTXC β maxLS m S GS step rssp acc).S := by
  intro m
  induction m with
  | zero => intro S GS step rssp acc h; exact h
  | succ m ih =>
    intro S GS step rssp acc h
    rw [gradStepsA]
    apply ih
    apply lineSearch_colSimplex _ projA β S _ _ maxLS step S rssp h
    intro step'
    exact projA_colSimplex S _ step' h.1 h.2
      (recentered_orth (CTXTXC * S - CTXTX) S h.2)

lemma gradStepsB_colSimplex (XTX : Mat n n α) (XTXST : Mat n k α)
    (SST : Mat k k α) (β : α) (maxLS : ℕ) (hn : (n : α) * theta α < 1) :
    ∀ (m : ℕ) (C GC : Mat n k α) (step rssp : α) (acc : Bool),
    ColSimplex C →
    ColSimplex
      (gradStepsB XTX XTXST SST β maxLS m C GC step rssp acc).S := by
  intro m
  induction m with
  | zero => intro C GC step rssp acc h; exact h
  | succ m ih =>
    intro C GC step rssp acc h
    rw [gradStepsB]
    apply ih
    apply lineSearch_colSimplex _ projB β C _ _ maxLS step C rssp h
    intro step'
    exact projB_colSimplex C _ step' h.1 h.2
      (recentered_orth (XTX * C * SST - XTXST) C h.2) hn

lemma pgdOptimA_simplex (β : α) (nI mL : ℕ) (s : PGDSt α n k f)
    (h : ColSimplex s.Aᵀ) : ColSimplex (pgdOptimA β nI mL s).Aᵀ := by
  show ColSimplex ((pgdOptimACore β nI mL s).Sᵀ)ᵀ
  rw [Matrix.transpose_transpose]
  exact gradStepsA_colSimplex _ _ β mL nI s.Aᵀ s.extra.GAᵀ s.extra.stepA
    _ true h

lemma pgdOptimB_simplex (β : α) (nI mL : ℕ) (s : PGDSt α n k f)
    (hn : (n : α) * theta α < 1) (h : ColSimplex s.Bᵀ) :
    ColSimplex (pgdOptimB β nI mL s).Bᵀ := by
  show ColSimplex ((pgdOptimBCore β nI mL s).Sᵀ)ᵀ
  rw [Matrix.transpose_transpose]
  exact gradStepsB_colSimplex _ _ _ β mL hn nI s.Bᵀ s.extra.GBᵀ
    s.extra.stepB _ true h


lemma rowStochastic_iff_colSimplex (M : Mat a b α) :
    RowStochastic M ↔ ColSimplex Mᵀ := by
  constructor
  · rintro ⟨h1, h2⟩
    exact ⟨fun i j => h1 j i, h2⟩
  · rintro ⟨h1, h2⟩
    exact ⟨fun i j => h1 j i, h2⟩

lemma onehotA_rowStochastic (inds : Fin n → Fin k) :
    RowStochastic (onehotA inds : Mat n k α) := by
  constructor
  · intro i j
    unfold onehotA
    split <;> norm_num
  · intro i
    simp [onehotA]

lemma onehotB_rowStochastic (inds : Fin k → Fin n) :
    RowStochastic (onehotB inds : Mat k n α) := by
  constructor
  · intro i j
    unfold onehotB
    split <;> norm_num
  · intro i
    simp [onehotB]

lemma fitLoop_preserves_AB (optA optB : AASt α n k f η → AASt α n k f η)
    (X : Mat n f α) (tol : α) (P : Mat n k α → Mat k n α → Prop)
    (hA : ∀ s, P s.A s.B → P (optA s).A (optA s).B)
    (hB : ∀ s, P s.A s.B → P (optB s).A (optB s).B) :
    ∀ (m : ℕ) (s : AASt α n k f η), P s.A s.B →
    P (fitLoop optA optB X tol m s).A (fitLoop optA optB X tol m s).B := by
  intro m
  induction m with
  | zero => intro s h; exact h
  | succ m ih =>
    intro s h
    rw [fitLoop]
    by_cases hc : |lossFn X (computeArchetypes X (optB (optA s))) -
        (computeArchetypes X (optB (optA s))).loss_.getLastD 0| < tol
    · rw [if_pos hc]
      exact hB _ (hA _ h)
    · rw [if_neg hc]
      exact ih _ (hB _ (hA _ h))

lemma engineFit_preserves_AB
    (initA initB optA optB : AASt α n k f η → AASt α n k f η)
    (X : Mat n f α) (maxIter : ℕ) (tol : α) (s : AASt α n k f η)
    (P : Mat n k α → Mat k n α → Prop)
    (hA : ∀ t, P t.A t.B → P (optA t).A (optA t).B)
    (hB : ∀ t, P t.A t.B → P (optB t).A (optB t).B)
    (hInit : P (initB (initA s)).A (initB (initA s)).B) :
    P (engineFit initA initB optA optB X maxIter tol s).A
      (engineFit initA initB optA optB X maxIter tol s).B :=
  fitLoop_preserves_AB optA optB X tol P hA hB maxIter _ hInit

lemma rowStochastic_approx (eps : α) (heps : 0 ≤ eps) (M : Mat a b α)
    (h : RowStochastic M) : ApproxRowStochastic eps M := by
  obtain ⟨h1, h2⟩ := h
  constructor
  · intro i j
    exact le_trans (neg_nonpos.mpr heps) (h1 i j)
  · intro i
    rw [h2 i, sub_self, abs_zero]
    exact heps

lemma softmaxRow_rowStochastic (M : Mat a b ℝ) (hb : 0 < b) :
    RowStochastic (softmaxRow M) := by
  have hD : ∀ i : Fin a, 0 < ∑ j', Real.exp (M i j') := by
    intro i
    exact Finset.sum_pos (fun j _ => Real.exp_pos _)
      ⟨⟨0, hb⟩, Finset.mem_univ _⟩
  constructor
  · intro i j
    exact div_nonneg (Real.exp_pos _).le (hD i).le
  · intro i
    unfold softmaxRow
    rw [← Finset.sum_div, div_self (hD i).ne']

lemma pgdFit_simplex (β : α) (nI mL : ℕ) (X : Mat n f α)
    (indsA : Fin n → Fin k) (indsB : Fin k → Fin n) (maxIter : ℕ)
    (tol : α) (s : PGDSt α n k f) (hn : (n : α) * theta α < 1) :
    RowStochastic (pgdFit β nI mL X indsA indsB maxIter tol s).A ∧
    RowStochastic (pgdFit β nI mL X indsA indsB maxIter tol s).B := by
  have key := engineFit_preserves_AB
    (fun t => { t with A := onehotA indsA })
    (fun t => { t with B := onehotB indsB })
    (pgdOptimA β nI mL) (pgdOptimB β nI mL) X maxIter tol
    ({ s with extra := ⟨s.extra.stepA, s.extra.stepB, 0, 0, X * Xᵀ⟩ })
    (fun A B => ColSimplex Aᵀ ∧ ColSimplex Bᵀ)
    (fun t h => ⟨pgdOptimA_simplex β nI mL t h.1, h.2⟩)
    (fun t h => ⟨h.1, pgdOptimB_simplex β nI mL t hn h.2⟩)
    ⟨(rowStochastic_iff_colSimplex _).mp (onehotA_rowStochastic indsA),
      (rowStochastic_iff_colSimplex _).mp (onehotB_rowStochastic indsB)⟩
  exact ⟨(rowStochastic_iff_colSimplex _).mpr key.1,
    (rowStochastic_iff_colSimplex _).mpr key.2⟩

lemma nnlsFit_simplex (eps : α) (pinv : Mat n k α → Mat k n α)
    (nnls : NNLSSolver α) (mi : Option ℕ) (X : Mat n f α)
    (indsA : Fin n → Fin k) (indsB : Fin k → Fin n) (maxIter : ℕ)
    (tol : α) (s : AASt α n k f Unit) (heps : 0 ≤ eps)
    (hsol : SolverOnSimplex eps nnls) :
    ApproxRowStochastic eps
      (nnlsFit pinv nnls mi X indsA indsB maxIter tol s).A ∧
    ApproxRowStochastic eps
      (nnlsFit pinv nnls mi X indsA indsB maxIter tol s).B :=
  engineFit_preserves_AB
    (fun t => { t with A := onehotA indsA })
    (fun t => { t with B := onehotB indsB })
    (nnlsOptimA nnls mi X) (nnlsOptimB pinv nnls mi X) X maxIter tol s
    (fun A B => ApproxRowStochastic eps A ∧ ApproxRowStochastic eps B)
    (fun t h => ⟨(hsol n k f X t.archetypes mi).1, h.2⟩)
    (fun t h => ⟨h.1, (hsol k n f (pinv t.A * X) X mi).1⟩)
    ⟨rowStochastic_approx eps heps _ (onehotA_rowStochastic indsA),
      rowStochastic_approx eps heps _ (onehotB_rowStochastic indsB)⟩

lemma jaxFit_simplex {τA τB : Type} (stA0 : Mat n k ℝ → τA)
    (stB0 : Mat k n ℝ → τB) (updA : Mat n k ℝ → τA → Mat n k ℝ × τA)
    (updB : Mat k n ℝ → τB → Mat k n ℝ × τB) (X : Mat n f ℝ)
    (indsA : Fin n → Fin k) (indsB : Fin k → Fin n) (maxIter : ℕ)
    (tol : ℝ) (s : JaxSt n k f τA τB) (hn : 0 < n) (hk : 0 < k) :
    RowStochastic
      (jaxFit stA0 stB0 updA updB X indsA indsB maxIter tol s).A ∧
    RowStochastic
      (jaxFit stA0 stB0 updA updB X indsA indsB maxIter tol s).B :=
  engineFit_preserves_AB (jaxInitA stA0 indsA) (jaxInitB stB0 indsB)
    (jaxOptimA updA X) (jaxOptimB updB X) X maxIter tol s
    (fun A B => RowStochastic A ∧ RowStochastic B)
    (fun t h => ⟨softmaxRow_rowStochastic _ hk, h.2⟩)
    (fun t h => ⟨h.1, softmaxRow_rowStochastic _ hn⟩)
    ⟨onehotA_rowStochastic indsA, onehotB_rowStochastic indsB⟩

/-- C3 (confirmed): every completed fit leaves A and B on (or near) the
row simplex, for each strategy.  In the exact arithmetic of this model the
pgd and jax strategies give exactly nonnegative entries and exact unit row
sums (which subsumes the claimed bounds with tolerance eps for every
nonnegative eps); the pgd B block additionally needs the sample count
times 1e-8 to stay below one, which holds for every realistic sample
count and is forced by the clamp threshold in _pgd_optim_B.  For the nnls
strategy the conclusion holds at the tolerance eps of the external
simplex solver, assuming only the interface the spec gives it
(nonnegative output, row sums within eps of one). -/
theorem final_A_B_on_simplex :
    (∀ (n' k' f' : ℕ) (β : ℚ) (nI mL : ℕ) (X : Mat n' f' ℚ)
        (indsA : Fin n' → Fin k') (indsB : Fin k' → Fin n')
        (maxIter : ℕ) (tol : ℚ) (s : PGDSt ℚ n' k' f'),
      (n' : ℚ) * theta ℚ < 1 →
      RowStochastic (pgdFit β nI mL X indsA indsB maxIter tol s).A ∧
      RowStochastic (pgdFit β nI mL X indsA indsB maxIter tol s).B) ∧
    (∀ (n' k' f' : ℕ) (eps : ℚ) (pinv : Mat n' k' ℚ → Mat k' n' ℚ)
        (nnls : NNLSSolver ℚ) (mi : Option ℕ) (X : Mat n' f' ℚ)
        (indsA : Fin n' → Fin k') (indsB : Fin k' → Fin n')
        (maxIter : ℕ) (tol : ℚ) (s : AASt ℚ n' k' f' Unit),
      0 ≤ eps → SolverOnSimplex eps nnls →
      ApproxRowStochastic eps
        (nnlsFit pinv nnls mi X indsA indsB maxIter tol s).A ∧
      ApproxRowStochastic eps
        (nnlsFit pinv nnls mi X indsA indsB maxIter tol s).B) ∧
    (∀ (n' k' f' : ℕ) (τA τB : Type) (stA0 : Mat n' k' ℝ → τA)
        (stB0 : Mat k' n' ℝ → τB)
        (updA : Mat n' k' ℝ → τA → Mat n' k' ℝ × τA)
        (updB : Mat k' n' ℝ → τB → Mat k' n' ℝ × τB) (X : Mat n' f' ℝ)
        (indsA : Fin n' → Fin k') (indsB : Fin k' → Fin n')
        (maxIter : ℕ) (tol : ℝ) (s : JaxSt n' k' f' τA τB),
      0 < n' → 0 < k' →
      RowStochastic
        (jaxFit stA0 stB0 updA updB X indsA indsB maxIter tol s).A ∧
      RowStochastic
        (jaxFit stA0 stB0 updA updB X indsA indsB maxIter tol s).B) := by
  refine ⟨?_, ?_, ?_⟩
  · intro n' k' f' β nI mL X indsA indsB maxIter tol s hn
    exact pgdFit_simplex β nI mL X indsA indsB maxIter tol s hn
  · intro n' k' f' eps pinv nnls mi X indsA indsB maxIter tol s heps hsol
    exact nnlsFit_simplex eps pinv nnls mi X indsA indsB maxIter tol s
      heps hsol
  · intro n' k' f' τA τB stA0 stB0 updA updB X indsA indsB maxIter tol
      s hn hk
    exact jaxFit_simplex stA0 stB0 updA updB X indsA indsB maxIter tol s
      hn hk

/-- C3 witness: the three conjuncts instantiated at concrete
one-sample-one-archetype fits: a pgd fit from a fresh estimator, an nnls
fit with the always-zero solver at tolerance one, and a jax fit with the
identity optimizer; every hypothesis is discharged on the concrete
input. -/
theorem final_A_B_on_simplex_witness :
    (RowStochastic (pgdFit (1 / 2) 1 1 X31 (fun _ => 0) (fun _ => 0) 1
        (1 / 10000) (pgdFresh 1 : PGDSt ℚ 3 1 1)).A ∧
      RowStochastic (pgdFit (1 / 2) 1 1 X31 (fun _ => 0) (fun _ => 0) 1
        (1 / 10000) (pgdFresh 1 : PGDSt ℚ 3 1 1)).B) ∧
    (ApproxRowStochastic 1 (nnlsFit pinvCx zeroSolver none Xcx
        (fun _ => 0) (fun _ => 0) 1 (1 / 100) cxSt).A ∧
      ApproxRowStochastic 1 (nnlsFit pinvCx zeroSolver none Xcx
        (fun _ => 0) (fun _ => 0) 1 (1 / 100) cxSt).B) ∧
    (RowStochastic (jaxFit (fun _ => ()) (fun _ => ())
        (fun g st => (g, st)) (fun g st => (g, st)) oneR (fun _ => 0)
        (fun _ => 0) 1 (1 / 100) jaxW).A ∧
      RowStochastic (jaxFit (fun _ => ()) (fun _ => ())
        (fun g st => (g, st)) (fun g st => (g, st)) oneR (fun _ => 0)
        (fun _ => 0) 1 (1 / 100) jaxW).B) := by
  refine ⟨?_, ?_, ?_⟩
  · exact final_A_B_on_simplex.1 3 1 1 (1 / 2) 1 1 X31 (fun _ => 0)
      (fun _ => 0) 1 (1 / 10000) (pgdFresh 1) (by norm_num [theta])
  · exact final_A_B_on_simplex.2.1 2 1 1 1 pinvCx zeroSolver none Xcx
      (fun _ => 0) (fun _ => 0) 1 (1 / 100) cxSt (by norm_num)
      (fun a b c D T mi =>
        ⟨⟨fun i j => by simp [zeroSolver], fun i => by
            simp [zeroSolver]⟩, fun i j => by simp [zeroSolver]⟩)
  · exact final_A_B_on_simplex.2.2 1 1 1 Unit Unit (fun _ => ())
      (fun _ => ()) (fun g st => (g, st)) (fun g st => (g, st)) oneR
      (fun _ => 0) (fun _ => 0) 1 (1 / 100) jaxW (by norm_num)
      (by norm_num)


lemma jaxLoss_shift_A (X : Mat n f ℝ) (A E : Mat n k ℝ) (B : Mat k n ℝ) (t : ℝ) :
    jaxLoss X (A + t • E) B =
    ∑ i, ∑ j, (1 / 2) * (X i j - ((A * (B * X)) i j + t * (E * (B * X)) i j)) ^ 2 := by
  unfold jaxLoss
  simp [Matrix.add_mul, Matrix.smul_mul, Matrix.add_apply, Matrix.smul_apply, smul_eq_mul]

lemma dirAt_mul_apply {c : ℕ} (p : Fin n) (q : Fin k) (M : Mat k c ℝ) (i : Fin n)
    (j : Fin c) : (dirAt p q * M) i j = if i = p then M q j else 0 := by
  simp [dirAt, Matrix.mul_apply, ite_and]

lemma hasDerivAt_jaxLossA (X : Mat n f ℝ) (A : Mat n k ℝ) (B : Mat k n ℝ)
    (p : Fin n) (q : Fin k) :
    HasDerivAt (fun t : ℝ => jaxLoss X (A + t • dirAt p q) B)
      (jaxGradA X A B p q) (0 : ℝ) := by
  have h : HasDerivAt
      (fun t : ℝ => ∑ i, ∑ j, (1 / 2) *
        (X i j - ((A * (B * X)) i j + t * ((dirAt p q * (B * X)) i j))) ^ 2)
      (∑ i, ∑ j, (1 / 2) *
        (2 * (X i j - ((A * (B * X)) i j + 0 * ((dirAt p q * (B * X)) i j))) ^ 1 *
          (-((dirAt p q * (B * X)) i j)))) 0 := by
    apply HasDerivAt.sum
    intro i _
    apply HasDerivAt.sum
    intro j _
    have h0 : HasDerivAt
        (fun t : ℝ => (A * (B * X)) i j + t * ((dirAt p q * (B * X)) i j))
        ((dirAt p q * (B * X)) i j) 0 := by
      simpa using ((hasDerivAt_id (0 : ℝ)).mul_const
        ((dirAt p q * (B * X)) i j)).const_add ((A * (B * X)) i j)
    have h1 := h0.const_sub (X i j)
    have h2 := h1.pow 2
    exact h2.const_mul (1 / 2)
  have hD : (∑ i, ∑ j, (1 / 2) *
        (2 * (X i j - ((A * (B * X)) i j + 0 * ((dirAt p q * (B * X)) i j))) ^ 1 *
          (-((dirAt p q * (B * X)) i j)))) = jaxGradA X A B p q := by
    have step1 : ∀ (i : Fin n) (j : Fin f), (1 / 2 : ℝ) *
        (2 * (X i j - ((A * (B * X)) i j + 0 * ((dirAt p q * (B * X)) i j))) ^ 1 *
          (-((dirAt p q * (B * X)) i j))) =
        (if i = p then -((X i j - (A * (B * X)) i j) * (B * X) q j) else 0) := by
      intro i j
      rw [dirAt_mul_apply]
      by_cases hip : i = p
      · simp only [hip, eq_self_iff_true, if_true]
        ring
      · simp [hip]
    calc (∑ i, ∑ j, (1 / 2 : ℝ) *
        (2 * (X i j - ((A * (B * X)) i j + 0 * ((dirAt p q * (B * X)) i j))) ^ 1 *
          (-((dirAt p q * (B * X)) i j))))
        = ∑ i, ∑ j, (if i = p then -((X i j - (A * (B * X)) i j) * (B * X) q j) else 0) := by
          exact Finset.sum_congr rfl fun i _ => Finset.sum_congr rfl fun j _ => step1 i j
      _ = ∑ j, -((X p j - (A * (B * X)) p j) * (B * X) q j) := by
          rw [Finset.sum_comm]
          simp
      _ = jaxGradA X A B p q := by
          simp [jaxGradA, Matrix.mul_apply, Matrix.sub_apply, Matrix.transpose_apply,
            Matrix.neg_apply, Finset.sum_neg_distrib, mul_comm]
  rw [← hD]
  exact h.congr_of_eventuallyEq (Filter.Eventually.of_forall
    (fun t => jaxLoss_shift_A X A (dirAt p q) B t))

lemma jaxLoss_shift_B (X : Mat n f ℝ) (A : Mat n k ℝ) (B E : Mat k n ℝ) (t : ℝ) :
    jaxLoss X A (B + t • E) =
    ∑ i, ∑ j, (1 / 2) * (X i j - ((A * (B * X)) i j + t * ((A * (E * X)) i j))) ^ 2 := by
  unfold jaxLoss
  simp [Matrix.add_mul, Matrix.smul_mul, Matrix.mul_add, Matrix.mul_smul,
    Matrix.add_apply, Matrix.smul_apply, smul_eq_mul]

lemma mul_dirAt_mul_apply (A : Mat n k ℝ) (p : Fin k) (q : Fin n) (X : Mat n f ℝ)
    (i : Fin n) (j : Fin f) :
    (A * (dirAt p q * X)) i j = A i p * X q j := by
  rw [Matrix.mul_apply]
  simp only [dirAt_mul_apply]
  simp [mul_ite, mul_zero]

lemma hasDerivAt_jaxLossB (X : Mat n f ℝ) (A : Mat n k ℝ) (B : Mat k n ℝ)
    (p : Fin k) (q : Fin n) :
    HasDerivAt (fun t : ℝ => jaxLoss X A (B + t • dirAt p q))
      (jaxGradB X A B p q) (0 : ℝ) := by
  have h : HasDerivAt
      (fun t : ℝ => ∑ i, ∑ j, (1 / 2) *
        (X i j - ((A * (B * X)) i j + t * ((A * (dirAt p q * X)) i j))) ^ 2)
      (∑ i, ∑ j, (1 / 2) *
        (2 * (X i j - ((A * (B * X)) i j + 0 * ((A * (dirAt p q * X)) i j))) ^ 1 *
          (-((A * (dirAt p q * X)) i j)))) 0 := by
    apply HasDerivAt.sum
    intro i _
    apply HasDerivAt.sum
    intro j _
    have h0 : HasDerivAt
        (fun t : ℝ => (A * (B * X)) i j + t * ((A * (dirAt p q * X)) i j))
        ((A * (dirAt p q * X)) i j) 0 := by
      simpa using ((hasDerivAt_id (0 : ℝ)).mul_const
        ((A * (dirAt p q * X)) i j)).const_add ((A * (B * X)) i j)
    have h1 := h0.const_sub (X i j)
    have h2 := h1.pow 2
    exact h2.const_mul (1 / 2)
  have hD : (∑ i, ∑ j, (1 / 2) *
        (2 * (X i j - ((A * (B * X)) i j + 0 * ((A * (dirAt p q * X)) i j))) ^ 1 *
          (-((A * (dirAt p q * X)) i j)))) = jaxGradB X A B p q := by
    have step1 : ∀ (i : Fin n) (j : Fin f), (1 / 2 : ℝ) *
        (2 * (X i j - ((A * (B * X)) i j + 0 * ((A * (dirAt p q * X)) i j))) ^ 1 *
          (-((A * (dirAt p q * X)) i j))) =
        -((X i j - (A * (B * X)) i j) * (A i p * X q j)) := by
      intro i j
      rw [mul_dirAt_mul_apply]
      ring
    calc (∑ i, ∑ j, (1 / 2 : ℝ) *
        (2 * (X i j - ((A * (B * X)) i j + 0 * ((A * (dirAt p q * X)) i j))) ^ 1 *
          (-((A * (dirAt p q * X)) i j))))
        = ∑ i, ∑ j, -((X i j - (A * (B * X)) i j) * (A i p * X q j)) := by
          exact Finset.sum_congr rfl fun i _ => Finset.sum_congr rfl fun j _ => step1 i j
      _ = jaxGradB X A B p q := by
          simp only [jaxGradB, Matrix.neg_apply, Matrix.mul_apply, Matrix.sub_apply,
            Matrix.transpose_apply, Finset.mul_sum, ← Finset.sum_neg_distrib]
          refine Finset.sum_congr rfl fun i _ => Finset.sum_congr rfl fun j _ => by ring
  rw [← hD]
  exact h.congr_of_eventuallyEq (Filter.Eventually.of_forall
    (fun t => jaxLoss_shift_B X A B (dirAt p q) t))

lemma softmaxRow_col_one {a : ℕ} (M : Mat a 1 ℝ) : softmaxRow M = fun _ _ => 1 := by
  funext i j
  have hj : j = 0 := Subsingleton.elim j 0
  subst hj
  simp [softmaxRow, Fin.sum_univ_one]

/-- C2 (corrected): what each jax optimize call actually computes.  The
closed forms jaxGradA and jaxGradB are certified as the exact gradient of
_jax_loss (which is HALF the squared reconstruction error, by the optax
l2_loss convention) with respect to the constrained matrix A_ (resp. B_)
itself — every partial derivative along every coordinate direction is
checked — not with respect to the unconstrained logits A_opt_ (the
counterexample shows these differ).  Structurally, each call feeds that
gradient to the matrix's optimizer, applies the returned update to the
logits, and recomputes the matrix as the row softmax of the updated
logits, exactly as the claim says. -/
theorem jax_optimize_grad_is_wrt_A :
    (∀ (n' k' f' : ℕ) (X : Mat n' f' ℝ) (A : Mat n' k' ℝ) (B : Mat k' n' ℝ)
        (p : Fin n') (q : Fin k'),
      HasDerivAt (fun t : ℝ => jaxLoss X (A + t • dirAt p q) B)
        (jaxGradA X A B p q) (0 : ℝ)) ∧
    (∀ (n' k' f' : ℕ) (X : Mat n' f' ℝ) (A : Mat n' k' ℝ) (B : Mat k' n' ℝ)
        (p : Fin k') (q : Fin n'),
      HasDerivAt (fun t : ℝ => jaxLoss X A (B + t • dirAt p q))
        (jaxGradB X A B p q) (0 : ℝ)) ∧
    (∀ (n' k' f' : ℕ) (X : Mat n' f' ℝ) (A : Mat n' k' ℝ) (B : Mat k' n' ℝ),
      jaxLoss X A B = (1 / 2) * lossABX X A B) ∧
    (∀ (n' k' f' : ℕ) (τA τB : Type) (updA : Mat n' k' ℝ → τA → Mat n' k' ℝ × τA)
        (X : Mat n' f' ℝ) (s : JaxSt n' k' f' τA τB),
      jaxOptimA updA X s =
        { s with
            A := softmaxRow (s.extra.Aopt + (updA (jaxGradA X s.A s.B) s.extra.stA).1),
            extra := { s.extra with
              Aopt := s.extra.Aopt + (updA (jaxGradA X s.A s.B) s.extra.stA).1,
              stA := (updA (jaxGradA X s.A s.B) s.extra.stA).2 } }) ∧
    (∀ (n' k' f' : ℕ) (τA τB : Type) (updB : Mat k' n' ℝ → τB → Mat k' n' ℝ × τB)
        (X : Mat n' f' ℝ) (s : JaxSt n' k' f' τA τB),
      jaxOptimB updB X s =
        { s with
            B := softmaxRow (s.extra.Bopt + (updB (jaxGradB X s.A s.B) s.extra.stB).1),
            extra := { s.extra with
              Bopt := s.extra.Bopt + (updB (jaxGradB X s.A s.B) s.extra.stB).1,
              stB := (updB (jaxGradB X s.A s.B) s.extra.stB).2 } }) := by
  refine ⟨?_, ?_, ?_, ?_, ?_⟩
  · intro n' k' f' X A B p q
    exact hasDerivAt_jaxLossA X A B p q
  · intro n' k' f' X A B p q
    exact hasDerivAt_jaxLossB X A B p q
  · intro n' k' f' X A B
    simp [jaxLoss, lossABX, Finset.mul_sum]
  · intro n' k' f' τA τB updA X s
    rfl
  · intro n' k' f' τA τB updB X s
    rfl

/-- C2 counterexample: at the exact state of the first optimize-A call of
a jax fit on Xj (A_ = Aj, B_ = Bj, both produced by the initializers),
the loss as a function of the logits of A is globally constant (with one
archetype the row softmax is identically one), so the gradient of the
claimed loss with respect to the logits is zero everywhere; yet the
gradient the code computes is nonzero (entry (1,0) equals 1), because it
differentiates with respect to the post-softmax matrix A_ itself.
Moreover the differentiated scalar is half the claimed squared error
(jaxLoss = 1/2 while the claimed loss is 1 at this state). -/
theorem jax_grad_not_wrt_logits_cx :
    (∀ L : Mat 2 1 ℝ, specLossOfLogitsA Xj L Bj = specLossOfLogitsA Xj 0 Bj) ∧
    jaxGradA Xj Aj Bj 1 0 = 1 ∧
    jaxLoss Xj Aj Bj = 1 / 2 ∧
    lossABX Xj Aj Bj = 1 ∧
    (jaxInitB (fun _ => ()) (fun _ => 0)
      (jaxInitA (fun _ => ()) (fun _ => 0) jaxCxSt)).A = Aj ∧
    (jaxInitB (fun _ => ()) (fun _ => 0)
      (jaxInitA (fun _ => ()) (fun _ => 0) jaxCxSt)).B = Bj := by
  refine ⟨?_, ?_, ?_, ?_, rfl, rfl⟩
  · intro L
    rw [specLossOfLogitsA, specLossOfLogitsA, softmaxRow_col_one, softmaxRow_col_one]
  · norm_num [jaxGradA, Xj, Aj, Bj, onehotA, onehotB, Matrix.mul_apply,
      Matrix.sub_apply, Matrix.neg_apply, Matrix.transpose_apply,
      Fin.sum_univ_one, Fin.sum_univ_two]
  · norm_num [jaxLoss, Xj, Aj, Bj, onehotA, onehotB, Matrix.mul_apply,
      Fin.sum_univ_one, Fin.sum_univ_two]
  · norm_num [lossABX, Xj, Aj, Bj, onehotA, onehotB, Matrix.mul_apply,
      Fin.sum_univ_one, Fin.sum_univ_two]

end AA
